import Mathlib

/-
Verification development for the flomo-demo content manager (src/server.js):
an in-memory note store with a derived tag → note-id index, plus photo and
album stores.  The JavaScript handlers are shallowly embedded as pure Lean
functions over explicit state; `Map`/`Set` values are embedded as
association lists / duplicate-free lists in insertion order, and JS string
primitives (`trim`, `toLowerCase`, `localeCompare`, `includes`) are embedded
as executable char-list functions (faithful on the ASCII inputs the store
handles).
-/

/-! ### String primitives (JS `String.prototype` operations) -/

/-- White-space test used by JS `trim` (ASCII white-space characters). -/
def isWS (c : Char) : Bool :=
  c = ' ' || c = '\t' || c = '\n' || c = '\r' || c = '\x0b' || c = '\x0c'

/-- Embeds JS `String.prototype.trim`: drop white-space from both ends. -/
def trimStr (s : String) : String :=
  String.mk (((s.toList.dropWhile isWS).reverse.dropWhile isWS).reverse)

/-- Embeds JS `String.prototype.toLowerCase` (ASCII case mapping). -/
def toLowerStr (s : String) : String :=
  String.mk (s.toList.map Char.toLower)

/-- Strict lexicographic order on char lists, the order underlying
`localeCompare` on the ASCII/ISO-8601 strings the store compares. -/
def lexLt : List Char → List Char → Bool
  | [], [] => false
  | [], _ :: _ => true
  | _ :: _, [] => false
  | x :: xs, y :: ys => if x < y then true else if y < x then false else lexLt xs ys

/-- Strict order on strings derived from `lexLt`. -/
def strLt (a b : String) : Bool := lexLt a.toList b.toList

/-- Embeds JS `a.localeCompare(b)` (sign convention: −1 / 0 / 1). -/
def localeCmp (a b : String) : Int :=
  if strLt a b then -1 else if strLt b a then 1 else 0

/-- Does `pat` occur as a leading segment of `l`? -/
def leadsWith : List Char → List Char → Bool
  | [], _ => true
  | _ :: _, [] => false
  | x :: xs, y :: ys => x == y && leadsWith xs ys

/-- Does `pat` occur as a contiguous segment of `l`?  Embeds JS
`String.prototype.includes` at the char-list level. -/
def occursIn (pat : List Char) : List Char → Bool
  | [] => pat.isEmpty
  | y :: ys => leadsWith pat (y :: ys) || occursIn pat ys

/-- Embeds JS `hay.includes(pat)` for strings. -/
def strIncludes (hay pat : String) : Bool := occursIn pat.toList hay.toList

/-! ### Note data model (src/server.js lines 34–74) -/

/-- A note record, also the shape returned by `toNoteResponse`. -/
structure Note where
  id : String
  content : String
  tags : List String
  createdAt : String
  updatedAt : String
deriving DecidableEq, Repr

/-- The `noteTags` map (`Map<string, Set<string>>`): association list from tag
name to bucket of note ids, in insertion order, buckets duplicate-free. -/
abbrev NoteTagIndex := List (String × List String)

/-- The mutable server state for the note store: the `notes` array and the
`noteTags` index. -/
structure Store where
  notes : List Note
  noteTags : NoteTagIndex
deriving DecidableEq, Repr

/-- The state after `resetNoteStore()`. -/
def emptyStore : Store := { notes := [], noteTags := [] }

/-- Embeds `normalizeTag` (src/server.js:49-51): `String(tag).trim().toLowerCase()`. -/
def normalizeTag (tag : String) : String := toLowerStr (trimStr tag)

/-- Embeds `findNote` (src/server.js:47): first note with the given id. -/
def findNote (s : Store) (id : String) : Option Note :=
  s.notes.find? (fun n => n.id == id)

/-- Embeds `addToNoteTagIndex` (src/server.js:53-56): insert `noteId` into the
bucket for `tag`; a missing bucket is created at the end of the map
(`Map.set` appends new keys), and `Set.add` keeps the bucket duplicate-free
in insertion order. -/
def addToNoteTagIndex (idx : NoteTagIndex) (noteId tag : String) : NoteTagIndex :=
  match idx with
  | [] => [(tag, [noteId])]
  | (k, b) :: rest =>
    if k = tag then (k, if noteId ∈ b then b else b ++ [noteId]) :: rest
    else (k, b) :: addToNoteTagIndex rest noteId tag

/-- Embeds `removeFromNoteTagIndex` (src/server.js:58-64): delete `noteId`
from the bucket for `tag` (if any); a bucket that becomes empty is deleted
from the map. -/
def removeFromNoteTagIndex (idx : NoteTagIndex) (noteId tag : String) : NoteTagIndex :=
  match idx with
  | [] => []
  | (k, b) :: rest =>
    if k = tag then
      let b' := b.erase noteId
      if b' = [] then rest else (k, b') :: rest
    else (k, b) :: removeFromNoteTagIndex rest noteId tag

/-- Embeds `noteTags.get(tag)`: the bucket stored under `tag`, if any. -/
def bucketFor (idx : NoteTagIndex) (tag : String) : Option (List String) :=
  (idx.find? (fun p => p.1 == tag)).map Prod.snd

/-- Membership of a (tag, noteId) pair in the index, through `bucketFor`. -/
def memIdx (idx : NoteTagIndex) (tag noteId : String) : Prop :=
  ∃ b, bucketFor idx tag = some b ∧ noteId ∈ b

instance (idx : NoteTagIndex) (tag noteId : String) : Decidable (memIdx idx tag noteId) := by
  unfold memIdx
  cases bucketFor idx tag with
  | none => exact .isFalse (by simp)
  | some b => exact decidable_of_iff (noteId ∈ b) (by simp)

/-- Duplicate elimination keeping first occurrences, with an explicit
`seen` accumulator; embeds the JS `new Set(xs)` iteration order. -/
def dedupAux : List String → List String → List String
  | [], _ => []
  | t :: ts, seen => if t ∈ seen then dedupAux ts seen else t :: dedupAux ts (t :: seen)

/-- Embeds `[...new Set(xs)]`: duplicates dropped, first occurrences kept in order. -/
def dedupFirst (l : List String) : List String := dedupAux l []

/-- Embeds the shared expression
`[...new Set(rawTags.map(normalizeTag).filter(t => t.length > 0))]`
of the create-note (src/server.js:346) and add-tags (src/server.js:395)
handlers. -/
def normalizeTags (rawTags : List String) : List String :=
  dedupFirst ((rawTags.map normalizeTag).filter (fun t => t.length > 0))

/-! ### Handler results -/

/-- Outcome of a request handler: an HTTP status with a JSON payload, or an
HTTP status with an `{error: message}` body. -/
inductive ApiResult (α : Type) where
  | ok (status : Nat) (payload : α)
  | err (status : Nat) (message : String)
deriving DecidableEq, Repr

/-! ### Note route handlers (src/server.js lines 306–429)

Each handler takes the pre-state and returns the response together with the
post-state; a handler that fails returns the state unchanged (the JS
handlers validate fully before mutating).  The current wall-clock string
(`new Date().toISOString()`) is passed in as `now`, and the randomly
generated id of `generateNoteId()` is passed to `createNote` as `freshId`. -/

/-- Replace the first note whose id is `id` by its image under `f`;
embeds in-place mutation of the note object found by `findNote`. -/
def replaceFirst (l : List Note) (id : String) (f : Note → Note) : List Note :=
  match l with
  | [] => []
  | n :: rest => if n.id == id then f n :: rest else n :: replaceFirst rest id f

/-- Remove the first note whose id is `id`; embeds
`notes.splice(notes.findIndex(...), 1)`. -/
def deleteFirst (l : List Note) (id : String) : List Note :=
  match l with
  | [] => []
  | n :: rest => if n.id == id then rest else n :: deleteFirst rest id

/-- Embeds `POST /api/notes` (src/server.js:337-362). -/
def createNote (s : Store) (freshId content : String) (rawTags : List String)
    (now : String) : ApiResult Note × Store :=
  if trimStr content = "" then (.err 400 "content is required", s)
  else
    let normalizedTags := normalizeTags rawTags
    match normalizedTags.find? (fun t => t.length > 32) with
    | some t => (.err 400 ("Tag \"" ++ t ++ "\" exceeds 32 characters"), s)
    | none =>
      if normalizedTags.length > 10 then
        (.err 400 "Tag limit exceeded: a note can have at most 10 tags", s)
      else
        let note : Note :=
          { id := freshId, content := trimStr content, tags := normalizedTags,
            createdAt := now, updatedAt := now }
        (.ok 201 note,
         { notes := s.notes ++ [note],
           noteTags := normalizedTags.foldl (fun i t => addToNoteTagIndex i freshId t) s.noteTags })

/-- Embeds `PATCH /api/notes/:id` (src/server.js:364-375); `content = none`
models a request body without a `content` field. -/
def patchNote (s : Store) (id : String) (content : Option String)
    (now : String) : ApiResult Note × Store :=
  match findNote s id with
  | none => (.err 404 "Note not found", s)
  | some note =>
    match content with
    | some c =>
      if trimStr c = "" then (.err 400 "content cannot be empty", s)
      else
        let note' := { note with content := trimStr c, updatedAt := now }
        (.ok 200 note',
         { s with notes := replaceFirst s.notes id (fun n => { n with content := trimStr c, updatedAt := now }) })
    | none =>
      let note' := { note with updatedAt := now }
      (.ok 200 note',
       { s with notes := replaceFirst s.notes id (fun n => { n with updatedAt := now }) })

/-- Embeds `DELETE /api/notes/:id` (src/server.js:377-384). -/
def deleteNote (s : Store) (id : String) : ApiResult Unit × Store :=
  match findNote s id with
  | none => (.err 404 "Note not found", s)
  | some note =>
    (.ok 204 (),
     { notes := deleteFirst s.notes id,
       noteTags := note.tags.foldl (fun i t => removeFromNoteTagIndex i note.id t) s.noteTags })

/-- Embeds `POST /api/notes/:id/tags` (src/server.js:388-413). -/
def addNoteTags (s : Store) (id : String) (rawTags : List String)
    (now : String) : ApiResult Note × Store :=
  match findNote s id with
  | none => (.err 404 "Note not found", s)
  | some note =>
    let incoming := normalizeTags rawTags
    match incoming.find? (fun t => t.length > 32) with
    | some t => (.err 400 ("Tag \"" ++ t ++ "\" exceeds 32 characters"), s)
    | none =>
      let newTags := incoming.filter (fun t => !note.tags.contains t)
      if note.tags.length + newTags.length > 10 then
        (.err 400 "Tag limit exceeded: a note can have at most 10 tags", s)
      else
        let note' := { note with tags := note.tags ++ newTags, updatedAt := now }
        (.ok 200 note',
         { notes := replaceFirst s.notes id (fun n => { n with tags := n.tags ++ newTags, updatedAt := now }),
           noteTags := newTags.foldl (fun i t => addToNoteTagIndex i note.id t) s.noteTags })

/-- Embeds `DELETE /api/notes/:id/tags/:tag` (src/server.js:415-429);
`rawTag` is the already URL-decoded path parameter. -/
def removeNoteTag (s : Store) (id rawTag : String)
    (now : String) : ApiResult Note × Store :=
  match findNote s id with
  | none => (.err 404 "Note not found", s)
  | some note =>
    let tagName := normalizeTag rawTag
    if tagName ∈ note.tags then
      let note' := { note with tags := note.tags.erase tagName, updatedAt := now }
      (.ok 200 note',
       { notes := replaceFirst s.notes id (fun n => { n with tags := n.tags.erase tagName, updatedAt := now }),
         noteTags := removeFromNoteTagIndex s.noteTags note.id tagName })
    else (.err 404 ("Tag '" ++ tagName ++ "' not found on this note"), s)

/-! ### GET /api/notes query pipeline (src/server.js lines 308–335) -/

/-- Query parameters of `GET /api/notes` after parsing; `sort` defaults to
`"createdAt"`, `order` to `"desc"`, `page` to 1 and `limit` to 20 when the
parameter is absent. -/
structure NotesQuery where
  tag : Option String
  search : Option String
  sort : String
  order : String
  page : Nat
  limit : Nat
deriving Repr

/-- The sort key selected by the `sort` parameter
(`sort === 'updatedAt' ? 'updatedAt' : 'createdAt'`). -/
def noteField (sort : String) (n : Note) : String :=
  if sort = "updatedAt" then n.updatedAt else n.createdAt

/-- The comparator passed to `result.sort` (src/server.js:323-327):
`localeCompare` on the selected field, negated unless `order === 'asc'`. -/
def noteCmp (sort ord : String) (a b : Note) : Int :=
  let cmp := localeCmp (noteField sort a) (noteField sort b)
  if ord = "asc" then cmp else -cmp

/-- Filter and sort stages of the `GET /api/notes` pipeline: tag filter
through the index, case-insensitive content search, then a stable sort by
`noteCmp`. -/
def notesPipeline (s : Store) (q : NotesQuery) : List Note :=
  let r1 := match q.tag with
    | none => s.notes
    | some t =>
      match bucketFor s.noteTags (toLowerStr t) with
      | some ids => s.notes.filter (fun n => ids.contains n.id)
      | none => []
  let r2 := match q.search with
    | none => r1
    | some str => r1.filter (fun n => strIncludes (toLowerStr n.content) (toLowerStr str))
  r2.insertionSort (fun a b => noteCmp q.sort q.order a b ≤ 0)

/-- Body of a `GET /api/notes` response. -/
structure NotesPage where
  notes : List Note
  total : Nat
  page : Nat
  limit : Nat
deriving Repr

/-- Embeds `GET /api/notes` (src/server.js:308-335): pipeline, then
pagination with the effective limit capped at 100 and the slice
`[(page-1)*limit, page*limit)`. -/
def getNotes (s : Store) (q : NotesQuery) : NotesPage :=
  let result := notesPipeline s q
  let total := result.length
  let l := min q.limit 100
  let paginated := (result.drop ((q.page - 1) * l)).take l
  { notes := paginated, total := total, page := q.page, limit := l }

/-- Names listed by `GET /api/tags` (src/server.js:198-220): the union of
the photo-tag names (lower-cased) and the keys of the note-tag index, first
occurrence kept. -/
def getTagsNames (photoTagNames : List String) (s : Store) : List String :=
  dedupFirst (photoTagNames.map toLowerStr ++ s.noteTags.map Prod.fst)

/-! ### Photo metadata updates (src/server.js lines 150–165)

Only the fields touched by `PATCH /api/photos/:id` are embedded; `rating` is
a JS number, embedded as a rational. -/

/-- A photo record restricted to the fields the metadata-update handler
reads or writes. -/
structure Photo where
  id : Nat
  title : Option String
  description : Option String
  rating : Option ℚ
  date_taken : Option String
  updated_at : String
deriving DecidableEq, Repr

/-- Request body of `PATCH /api/photos/:id`: the outer `Option` is field
presence (`undefined` when absent), the inner one JSON `null`. -/
structure PhotoPatchBody where
  title : Option (Option String)
  description : Option (Option String)
  rating : Option (Option ℚ)
  date_taken : Option (Option String)
deriving Repr

/-- Embeds `findPhoto` (src/server.js:76). -/
def findPhoto (photos : List Photo) (id : Nat) : Option Photo :=
  photos.find? (fun p => p.id == id)

/-- Replace the first photo whose id is `id` by `p'` (in-place mutation of
the object found by `findPhoto`). -/
def replaceFirstPhoto (l : List Photo) (id : Nat) (p' : Photo) : List Photo :=
  match l with
  | [] => []
  | p :: rest => if p.id == id then p' :: rest else p :: replaceFirstPhoto rest id p'

/-- Embeds `PATCH /api/photos/:id` (src/server.js:150-165).  Field updates
are applied in source order: `title` and `description` are written before
the rating check, so a rejected rating still leaves those updates visible
(in-place mutation); the rating itself is rejected, with the photo's rating
unchanged, exactly when it is non-null and `< 1` or `> 5`. -/
def patchPhoto (photos : List Photo) (id : Nat) (body : PhotoPatchBody)
    (now : String) : ApiResult Photo × List Photo :=
  match findPhoto photos id with
  | none => (.err 404 "Photo not found", photos)
  | some p =>
    let p1 := match body.title with | none => p | some t => { p with title := t }
    let p2 := match body.description with | none => p1 | some d => { p1 with description := d }
    let applyRest := fun (p' : Photo) =>
      let p3 := match body.date_taken with | none => p' | some d => { p' with date_taken := d }
      let p4 := { p3 with updated_at := now }
      ((ApiResult.ok 200 p4 : ApiResult Photo), replaceFirstPhoto photos id p4)
    match body.rating with
    | none => applyRest p2
    | some none => applyRest { p2 with rating := none }
    | some (some r) =>
      if r < 1 ∨ r > 5 then
        (.err 400 "Rating must be between 1 and 5", replaceFirstPhoto photos id p2)
      else applyRest { p2 with rating := some r }

/-! ### Albums (src/server.js lines 240–273) -/

/-- An album record (the fields the create/rename handlers touch). -/
structure Album where
  id : Nat
  name : String
  description : Option String
  cover_photo_id : Option Nat
  created_at : String
  updated_at : String
deriving DecidableEq, Repr

/-- Embeds `findAlbum` (src/server.js:77). -/
def findAlbum (albums : List Album) (id : Nat) : Option Album :=
  albums.find? (fun a => a.id == id)

/-- Replace the first album whose id is `id` by `a'`. -/
def replaceFirstAlbum (l : List Album) (id : Nat) (a' : Album) : List Album :=
  match l with
  | [] => []
  | a :: rest => if a.id == id then a' :: rest else a :: replaceFirstAlbum rest id a'

/-- Embeds `POST /api/albums` (src/server.js:240-256).  Note the duplicate
check `albums.find(a => a.name === name)` compares against the *raw*
request name, while the stored name is `name.trim()`. -/
def createAlbum (albums : List Album) (nextAlbumId : Nat) (name : String)
    (description : Option String) (now : String) :
    ApiResult Album × List Album × Nat :=
  if trimStr name = "" then (.err 400 "Album name is required", albums, nextAlbumId)
  else if albums.any (fun a => a.name == name) then
    (.err 409 "Album name already exists", albums, nextAlbumId)
  else
    let album : Album :=
      { id := nextAlbumId, name := trimStr name, description := description,
        cover_photo_id := none, created_at := now, updated_at := now }
    (.ok 201 album, albums ++ [album], nextAlbumId + 1)

/-- Embeds `PATCH /api/albums/:id` (src/server.js:258-273); same raw-name
duplicate check against other albums, trimmed storage. -/
def patchAlbum (albums : List Album) (id : Nat) (name : Option String)
    (description : Option (Option String)) (now : String) :
    ApiResult Album × List Album :=
  match findAlbum albums id with
  | none => (.err 404 "Album not found", albums)
  | some album =>
    match name with
    | some nm =>
      if trimStr nm = "" then (.err 400 "Album name is required", albums)
      else if albums.any (fun a => a.name == nm && a.id != id) then
        (.err 409 "Album name already exists", albums)
      else
        let a1 := { album with name := trimStr nm }
        let a2 := match description with | none => a1 | some d => { a1 with description := d }
        let a3 := { a2 with updated_at := now }
        (.ok 200 a3, replaceFirstAlbum albums id a3)
    | none =>
      let a2 := match description with | none => album | some d => { album with description := d }
      let a3 := { a2 with updated_at := now }
      (.ok 200 a3, replaceFirstAlbum albums id a3)

/-! ### Note-store state machine

Any interleaving of the four mutating note operations, each applied through
its full handler (so failed requests contribute the unchanged state).  The
only environmental assumption is that `generateNoteId()` yields an id not
currently in use, recorded by the `freshRun` predicate on a trace. -/

/-- One mutating note request; `now` is the wall clock at handling time. -/
inductive NoteOp where
  | create (id content : String) (tags : List String) (now : String)
  | addTags (id : String) (tags : List String) (now : String)
  | removeTag (id tag now : String)
  | delete (id : String)
deriving Repr

/-- The state after handling one request (failures leave the state as is). -/
def stepOp (s : Store) : NoteOp → Store
  | .create id content tags now => (createNote s id content tags now).2
  | .addTags id tags now => (addNoteTags s id tags now).2
  | .removeTag id tag now => (removeNoteTag s id tag now).2
  | .delete id => (deleteNote s id).2

/-- The state after handling a whole trace of requests. -/
def runOps (s : Store) (ops : List NoteOp) : Store := ops.foldl stepOp s

/-- Is the id supplied to a create request unused in the current state? -/
def freshOp (s : Store) : NoteOp → Bool
  | .create id _ _ _ => !(s.notes.map Note.id).contains id
  | _ => true

/-- Every create request in the trace carries an id that is fresh at the
moment it executes (the guarantee `generateNoteId` provides). -/
def freshRun : Store → List NoteOp → Bool
  | _, [] => true
  | s, op :: ops => freshOp s op && freshRun (stepOp s op) ops

/-- Index consistency as stated by the specification: every tag of every
note is indexed under the note's id, and every indexed (tag, id) pair points
back to an existing note carrying the tag. -/
def IndexConsistent (s : Store) : Prop :=
  (∀ n ∈ s.notes, ∀ t ∈ n.tags, memIdx s.noteTags t n.id) ∧
  (∀ p ∈ s.noteTags, ∀ i ∈ p.2, ∃ n ∈ s.notes, n.id = i ∧ p.1 ∈ n.tags)

/-! ### Lemmas: deduplication -/

theorem mem_dedupAux {x : String} : ∀ {l seen : List String},
    x ∈ dedupAux l seen ↔ x ∈ l ∧ x ∉ seen := by
  intro l
  induction l with
  | nil => intro seen; simp [dedupAux]
  | cons t ts ih =>
    intro seen
    rw [dedupAux]
    by_cases ht : t ∈ seen
    · rw [if_pos ht, ih]
      constructor
      · rintro ⟨hx, hs⟩; exact ⟨List.mem_cons_of_mem _ hx, hs⟩
      · rintro ⟨hx, hs⟩
        rcases List.mem_cons.mp hx with rfl | hx'
        · exact absurd ht hs
        · exact ⟨hx', hs⟩
    · rw [if_neg ht]
      constructor
      · intro hx
        rcases List.mem_cons.mp hx with rfl | hx'
        · exact ⟨List.mem_cons_self _ _, ht⟩
        · rcases ih.mp hx' with ⟨h1, h2⟩
          exact ⟨List.mem_cons_of_mem _ h1, fun hs => h2 (List.mem_cons_of_mem _ hs)⟩
      · rintro ⟨hx, hs⟩
        rcases List.mem_cons.mp hx with rfl | hx'
        · exact List.mem_cons_self _ _
        · by_cases hxt : x = t
          · subst hxt; exact List.mem_cons_self _ _
          · refine List.mem_cons_of_mem _ (ih.mpr ⟨hx', ?_⟩)
            intro hm
            rcases List.mem_cons.mp hm with h | h
            · exact hxt h
            · exact hs h

theorem nodup_dedupAux : ∀ {l seen : List String}, (dedupAux l seen).Nodup := by
  intro l
  induction l with
  | nil => intro seen; simp [dedupAux]
  | cons t ts ih =>
    intro seen
    rw [dedupAux]
    by_cases ht : t ∈ seen
    · rw [if_pos ht]; exact ih
    · rw [if_neg ht]
      refine List.nodup_cons.mpr ⟨?_, ih⟩
      intro hmem
      exact (mem_dedupAux.mp hmem).2 (List.mem_cons_self t seen)

theorem mem_dedupFirst {x : String} {l : List String} : x ∈ dedupFirst l ↔ x ∈ l := by
  simp [dedupFirst, mem_dedupAux]

theorem nodup_dedupFirst {l : List String} : (dedupFirst l).Nodup := nodup_dedupAux

theorem nodup_normalizeTags {raw : List String} : (normalizeTags raw).Nodup :=
  nodup_dedupFirst

/-! ### Lemmas: index keys and buckets -/

/-- The tag names present in the index. -/
def idxKeys (idx : NoteTagIndex) : List String := idx.map Prod.fst

@[simp] theorem idxKeys_nil : idxKeys [] = [] := rfl

@[simp] theorem idxKeys_cons (p : String × List String) (rest : NoteTagIndex) :
    idxKeys (p :: rest) = p.1 :: idxKeys rest := rfl

theorem bucketFor_cons (p : String × List String) (rest : NoteTagIndex) (t : String) :
    bucketFor (p :: rest) t = if p.1 == t then some p.2 else bucketFor rest t := by
  unfold bucketFor
  cases h : (p.1 == t) <;> simp [List.find?, h]

theorem bucketFor_eq_none {idx : NoteTagIndex} {t : String}
    (h : t ∉ idxKeys idx) : bucketFor idx t = none := by
  unfold bucketFor
  have hf : idx.find? (fun p => p.1 == t) = none := by
    rw [List.find?_eq_none]
    intro p hp hbeq
    apply h
    have hpt : p.1 = t := by simpa using hbeq
    exact List.mem_map.mpr ⟨p, hp, hpt⟩
  rw [hf]
  rfl

theorem bucketFor_of_mem {idx : NoteTagIndex} {p : String × List String}
    (hk : (idxKeys idx).Nodup) (hp : p ∈ idx) : bucketFor idx p.1 = some p.2 := by
  induction idx with
  | nil => cases hp
  | cons q rest ih =>
    rw [idxKeys_cons] at hk
    rcases List.mem_cons.mp hp with rfl | hp'
    · rw [bucketFor_cons, if_pos (by simp)]
    · have hq : q.1 ∉ idxKeys rest := (List.nodup_cons.mp hk).1
      have hne : q.1 ≠ p.1 := by
        intro he
        exact hq (he ▸ List.mem_map.mpr ⟨p, hp', rfl⟩)
      rw [bucketFor_cons, if_neg (by simpa using hne)]
      exact ih (List.nodup_cons.mp hk).2 hp'

theorem bucketFor_mem {idx : NoteTagIndex} {t : String} {b : List String}
    (h : bucketFor idx t = some b) : (t, b) ∈ idx := by
  unfold bucketFor at h
  cases hf : idx.find? (fun p => p.1 == t) with
  | none => rw [hf] at h; cases h
  | some p =>
    rw [hf] at h
    have hpm := List.mem_of_find?_eq_some hf
    have hpt : p.1 = t := by simpa using List.find?_some hf
    have hb : p.2 = b := by simpa using h
    have hpe : p = (t, b) := by
      cases p
      simp_all
    exact hpe ▸ hpm

/-! ### Lemmas: adding to the index -/

theorem memIdx_iff_of_bucket {idx : NoteTagIndex} {t : String} {b : List String} {i : String}
    (h : bucketFor idx t = some b) : memIdx idx t i ↔ i ∈ b := by
  unfold memIdx
  rw [h]
  simp

theorem not_memIdx_of_none {idx : NoteTagIndex} {t i : String}
    (h : bucketFor idx t = none) : ¬ memIdx idx t i := by
  unfold memIdx
  rw [h]
  simp

theorem bucketFor_add_self (idx : NoteTagIndex) (id t : String) :
    bucketFor (addToNoteTagIndex idx id t) t =
      some (match bucketFor idx t with
            | none => [id]
            | some b => if id ∈ b then b else b ++ [id]) := by
  induction idx with
  | nil => simp [addToNoteTagIndex, bucketFor_eq_none, bucketFor_cons]
  | cons q rest ih =>
    rcases q with ⟨k, b⟩
    by_cases hk : k = t
    · subst hk
      rw [addToNoteTagIndex, if_pos rfl, bucketFor_cons, bucketFor_cons]
      simp
    · rw [addToNoteTagIndex, if_neg hk, bucketFor_cons, bucketFor_cons,
          if_neg (by simpa using hk), if_neg (by simpa using hk)]
      exact ih

theorem bucketFor_add_self_none {idx : NoteTagIndex} {id t : String}
    (h : bucketFor idx t = none) :
    bucketFor (addToNoteTagIndex idx id t) t = some [id] := by
  have := bucketFor_add_self idx id t
  rw [h] at this
  exact this

theorem bucketFor_add_self_some {idx : NoteTagIndex} {id t : String} {b : List String}
    (h : bucketFor idx t = some b) :
    bucketFor (addToNoteTagIndex idx id t) t = some (if id ∈ b then b else b ++ [id]) := by
  have := bucketFor_add_self idx id t
  rw [h] at this
  exact this

theorem bucketFor_add_ne (idx : NoteTagIndex) (id : String) {t t' : String}
    (h : t' ≠ t) : bucketFor (addToNoteTagIndex idx id t) t' = bucketFor idx t' := by
  induction idx with
  | nil =>
    simp [addToNoteTagIndex, bucketFor_cons, bucketFor, Ne.symm h]
  | cons q rest ih =>
    rcases q with ⟨k, b⟩
    by_cases hk : k = t
    · subst hk
      rw [addToNoteTagIndex, if_pos rfl, bucketFor_cons, bucketFor_cons]
      simp only
      rw [if_neg (by simpa using fun he => h he.symm), if_neg (by simpa using fun he => h he.symm)]
    · rw [addToNoteTagIndex, if_neg hk, bucketFor_cons, bucketFor_cons]
      by_cases hkt : k = t'
      · rw [if_pos (by simpa using hkt), if_pos (by simpa using hkt)]
      · rw [if_neg (by simpa using hkt), if_neg (by simpa using hkt)]
        exact ih

theorem memIdx_add (idx : NoteTagIndex) (id t t' i : String) :
    memIdx (addToNoteTagIndex idx id t) t' i ↔ memIdx idx t' i ∨ (t' = t ∧ i = id) := by
  by_cases ht : t' = t
  · subst ht
    cases hb : bucketFor idx t' with
    | none =>
      rw [memIdx_iff_of_bucket (bucketFor_add_self_none hb)]
      simp [not_memIdx_of_none hb]
    | some b =>
      rw [memIdx_iff_of_bucket (bucketFor_add_self_some hb), memIdx_iff_of_bucket hb]
      by_cases hid : id ∈ b
      · rw [if_pos hid]
        constructor
        · exact fun h => Or.inl h
        · rintro (h | ⟨-, rfl⟩)
          · exact h
          · exact hid
      · rw [if_neg hid]
        simp only [List.mem_append, List.mem_singleton]
        constructor
        · rintro (h | h)
          · exact Or.inl h
          · exact Or.inr ⟨by trivial, h⟩
        · rintro (h | ⟨-, rfl⟩)
          · exact Or.inl h
          · exact Or.inr rfl
  · unfold memIdx
    rw [bucketFor_add_ne idx id ht]
    simp [ht]

theorem idxKeys_add (idx : NoteTagIndex) (id t : String) :
    idxKeys (addToNoteTagIndex idx id t) =
      if t ∈ idxKeys idx then idxKeys idx else idxKeys idx ++ [t] := by
  induction idx with
  | nil => simp [addToNoteTagIndex]
  | cons q rest ih =>
    rcases q with ⟨k, b⟩
    by_cases hk : k = t
    · subst hk
      rw [addToNoteTagIndex, if_pos rfl]
      simp
    · rw [addToNoteTagIndex, if_neg hk]
      by_cases hmem : t ∈ idxKeys rest
      · have hmem' : t ∈ idxKeys ((k, b) :: rest) := by
          rw [idxKeys_cons]
          exact List.mem_cons_of_mem _ hmem
        rw [if_pos hmem', idxKeys_cons, idxKeys_cons, ih, if_pos hmem]
      · have hnotin : t ∉ idxKeys ((k, b) :: rest) := by
          rw [idxKeys_cons]
          intro hmm
          rcases List.mem_cons.mp hmm with h | h
          · exact hk h.symm
          · exact hmem h
        rw [if_neg hnotin, idxKeys_cons, idxKeys_cons, ih, if_neg hmem]
        simp

theorem keysNodup_add {idx : NoteTagIndex} (id t : String)
    (h : (idxKeys idx).Nodup) : (idxKeys (addToNoteTagIndex idx id t)).Nodup := by
  rw [idxKeys_add]
  by_cases hm : t ∈ idxKeys idx
  · rwa [if_pos hm]
  · rw [if_neg hm]
    simpa [List.nodup_append] using ⟨h, hm⟩

theorem bucketsNodup_add {idx : NoteTagIndex} (id t : String)
    (h : ∀ p ∈ idx, p.2.Nodup) : ∀ p ∈ addToNoteTagIndex idx id t, p.2.Nodup := by
  induction idx with
  | nil =>
    intro p hp
    rcases List.mem_cons.mp hp with rfl | hp'
    · simp
    · cases hp'
  | cons q rest ih =>
    rcases q with ⟨k, b⟩
    by_cases hk : k = t
    · subst hk
      rw [addToNoteTagIndex, if_pos rfl]
      intro p hp
      rcases List.mem_cons.mp hp with rfl | hp'
      · have hb : b.Nodup := h (k, b) (List.mem_cons_self _ _)
        by_cases hid : id ∈ b
        · simpa [if_pos hid] using hb
        · simp only [if_neg hid]
          refine List.Nodup.append hb (by simp) ?_
          intro x hx hxid
          have hx' : x = id := by simpa using hxid
          exact hid (hx' ▸ hx)
      · exact h p (List.mem_cons_of_mem _ hp')
    · rw [addToNoteTagIndex, if_neg hk]
      intro p hp
      rcases List.mem_cons.mp hp with rfl | hp'
      · exact h _ (List.mem_cons_self _ _)
      · exact ih (fun p' hp'' => h p' (List.mem_cons_of_mem _ hp'')) p hp'

theorem bucketsNonempty_add {idx : NoteTagIndex} (id t : String)
    (h : ∀ p ∈ idx, p.2 ≠ []) : ∀ p ∈ addToNoteTagIndex idx id t, p.2 ≠ [] := by
  induction idx with
  | nil =>
    intro p hp
    rcases List.mem_cons.mp hp with rfl | hp'
    · simp
    · cases hp'
  | cons q rest ih =>
    rcases q with ⟨k, b⟩
    by_cases hk : k = t
    · subst hk
      rw [addToNoteTagIndex, if_pos rfl]
      intro p hp
      rcases List.mem_cons.mp hp with rfl | hp'
      · by_cases hid : id ∈ b
        · simpa [if_pos hid] using h (k, b) (List.mem_cons_self _ _)
        · simp [if_neg hid]
      · exact h p (List.mem_cons_of_mem _ hp')
    · rw [addToNoteTagIndex, if_neg hk]
      intro p hp
      rcases List.mem_cons.mp hp with rfl | hp'
      · exact h _ (List.mem_cons_self _ _)
      · exact ih (fun p' hp'' => h p' (List.mem_cons_of_mem _ hp'')) p hp'

/-! ### Lemmas: removing from the index -/

theorem erase_eq_nil_cases {b : List String} {id : String}
    (h : b.erase id = []) : b = [] ∨ b = [id] := by
  cases b with
  | nil => exact Or.inl rfl
  | cons x xs =>
    by_cases hx : x = id
    · subst hx
      rw [List.erase_cons_head] at h
      exact Or.inr (by rw [h])
    · rw [List.erase_cons_tail (by simpa using hx)] at h
      cases h

theorem bucketFor_remove_ne (idx : NoteTagIndex) (id : String) {t t' : String}
    (h : t' ≠ t) :
    bucketFor (removeFromNoteTagIndex idx id t) t' = bucketFor idx t' := by
  induction idx with
  | nil => simp [removeFromNoteTagIndex]
  | cons q rest ih =>
    rcases q with ⟨k, b⟩
    by_cases hk : k = t
    · subst hk
      rw [removeFromNoteTagIndex, if_pos rfl]
      by_cases hb : b.erase id = []
      · rw [if_pos hb, bucketFor_cons, if_neg (by simpa using fun he => h he.symm)]
      · rw [if_neg hb, bucketFor_cons, bucketFor_cons]
        simp only
        rw [if_neg (by simpa using fun he => h he.symm), if_neg (by simpa using fun he => h he.symm)]
    · rw [removeFromNoteTagIndex, if_neg hk, bucketFor_cons, bucketFor_cons]
      by_cases hkt : k = t'
      · rw [if_pos (by simpa using hkt), if_pos (by simpa using hkt)]
      · rw [if_neg (by simpa using hkt), if_neg (by simpa using hkt)]
        exact ih

theorem bucketFor_remove_self {idx : NoteTagIndex} (id t : String)
    (hk : (idxKeys idx).Nodup) :
    bucketFor (removeFromNoteTagIndex idx id t) t =
      match bucketFor idx t with
      | none => none
      | some b => if b.erase id = [] then none else some (b.erase id) := by
  induction idx with
  | nil => simp [removeFromNoteTagIndex, bucketFor]
  | cons q rest ih =>
    rcases q with ⟨k, b⟩
    rw [idxKeys_cons] at hk
    by_cases hkt : k = t
    · subst hkt
      rw [removeFromNoteTagIndex, if_pos rfl]
      have hknot : k ∉ idxKeys rest := (List.nodup_cons.mp hk).1
      by_cases hb : b.erase id = []
      · rw [if_pos hb, bucketFor_eq_none hknot, bucketFor_cons, if_pos (by simp)]
        simp [hb]
      · rw [if_neg hb, bucketFor_cons, if_pos (by simp), bucketFor_cons, if_pos (by simp)]
        simp [hb]
    · rw [removeFromNoteTagIndex, if_neg hkt, bucketFor_cons, bucketFor_cons,
          if_neg (by simpa using hkt), if_neg (by simpa using hkt)]
      exact ih (List.nodup_cons.mp hk).2

theorem bucketFor_remove_self_none {idx : NoteTagIndex} (id : String) {t : String}
    (hk : (idxKeys idx).Nodup) (h : bucketFor idx t = none) :
    bucketFor (removeFromNoteTagIndex idx id t) t = none := by
  have hr := bucketFor_remove_self id t hk
  rw [h] at hr
  exact hr

theorem bucketFor_remove_self_some {idx : NoteTagIndex} (id : String) {t : String} {b : List String}
    (hk : (idxKeys idx).Nodup) (h : bucketFor idx t = some b) :
    bucketFor (removeFromNoteTagIndex idx id t) t =
      if b.erase id = [] then none else some (b.erase id) := by
  have hr := bucketFor_remove_self id t hk
  rw [h] at hr
  exact hr

theorem memIdx_remove {idx : NoteTagIndex} (id t : String)
    (hk : (idxKeys idx).Nodup) (hb : ∀ p ∈ idx, p.2.Nodup) (t' i : String) :
    memIdx (removeFromNoteTagIndex idx id t) t' i ↔
      memIdx idx t' i ∧ ¬(t' = t ∧ i = id) := by
  by_cases ht : t' = t
  · subst ht
    cases hbkt : bucketFor idx t' with
    | none =>
      have hself := bucketFor_remove_self_none id hk hbkt
      simp [not_memIdx_of_none hself, not_memIdx_of_none hbkt]
    | some b =>
      have hself := bucketFor_remove_self_some id hk hbkt
      have hbnodup : b.Nodup := hb _ (bucketFor_mem hbkt)
      by_cases he : b.erase id = []
      · rw [if_pos he] at hself
        rw [memIdx_iff_of_bucket hbkt]
        simp only [not_memIdx_of_none hself, false_iff]
        rintro ⟨hib, hni⟩
        rcases erase_eq_nil_cases he with rfl | rfl
        · cases hib
        · exact hni ⟨by trivial, by simpa using hib⟩
      · rw [if_neg he] at hself
        rw [memIdx_iff_of_bucket hself, memIdx_iff_of_bucket hbkt,
            List.Nodup.mem_erase_iff hbnodup]
        constructor
        · rintro ⟨hne, hib⟩
          exact ⟨hib, fun h => hne h.2⟩
        · rintro ⟨hib, hni⟩
          exact ⟨fun h => hni ⟨by trivial, h⟩, hib⟩
  · unfold memIdx
    rw [bucketFor_remove_ne idx id ht]
    simp [ht]

theorem mem_idxKeys_remove {idx : NoteTagIndex} {id t x : String}
    (h : x ∈ idxKeys (removeFromNoteTagIndex idx id t)) : x ∈ idxKeys idx := by
  induction idx with
  | nil => simpa [removeFromNoteTagIndex] using h
  | cons q rest ih =>
    rcases q with ⟨k, b⟩
    by_cases hk : k = t
    · subst hk
      rw [removeFromNoteTagIndex, if_pos rfl] at h
      by_cases hb : b.erase id = []
      · rw [if_pos hb] at h
        exact List.mem_cons_of_mem _ h
      · rw [if_neg hb] at h
        simpa using h
    · rw [removeFromNoteTagIndex, if_neg hk] at h
      rw [idxKeys_cons] at h ⊢
      rcases List.mem_cons.mp h with rfl | h'
      · exact List.mem_cons_self _ _
      · exact List.mem_cons_of_mem _ (ih h')

theorem keysNodup_remove {idx : NoteTagIndex} (id t : String)
    (h : (idxKeys idx).Nodup) : (idxKeys (removeFromNoteTagIndex idx id t)).Nodup := by
  induction idx with
  | nil => simpa [removeFromNoteTagIndex] using h
  | cons q rest ih =>
    rcases q with ⟨k, b⟩
    rw [idxKeys_cons] at h
    by_cases hk : k = t
    · subst hk
      rw [removeFromNoteTagIndex, if_pos rfl]
      by_cases hb : b.erase id = []
      · rw [if_pos hb]
        exact (List.nodup_cons.mp h).2
      · rw [if_neg hb, idxKeys_cons]
        exact List.nodup_cons.mpr ⟨(List.nodup_cons.mp h).1, (List.nodup_cons.mp h).2⟩
    · rw [removeFromNoteTagIndex, if_neg hk, idxKeys_cons]
      refine List.nodup_cons.mpr ⟨?_, ih (List.nodup_cons.mp h).2⟩
      intro hmem
      exact (List.nodup_cons.mp h).1 (mem_idxKeys_remove hmem)

theorem bucketsNodup_remove {idx : NoteTagIndex} (id t : String)
    (h : ∀ p ∈ idx, p.2.Nodup) : ∀ p ∈ removeFromNoteTagIndex idx id t, p.2.Nodup := by
  induction idx with
  | nil => intro p hp; cases hp
  | cons q rest ih =>
    rcases q with ⟨k, b⟩
    by_cases hk : k = t
    · subst hk
      rw [removeFromNoteTagIndex, if_pos rfl]
      by_cases hb : b.erase id = []
      · rw [if_pos hb]
        exact fun p hp => h p (List.mem_cons_of_mem _ hp)
      · rw [if_neg hb]
        intro p hp
        rcases List.mem_cons.mp hp with rfl | hp'
        · exact List.Nodup.erase id (h _ (List.mem_cons_self _ _))
        · exact h p (List.mem_cons_of_mem _ hp')
    · rw [removeFromNoteTagIndex, if_neg hk]
      intro p hp
      rcases List.mem_cons.mp hp with rfl | hp'
      · exact h _ (List.mem_cons_self _ _)
      · exact ih (fun p' hp'' => h p' (List.mem_cons_of_mem _ hp'')) p hp'

theorem bucketsNonempty_remove {idx : NoteTagIndex} (id t : String)
    (h : ∀ p ∈ idx, p.2 ≠ []) : ∀ p ∈ removeFromNoteTagIndex idx id t, p.2 ≠ [] := by
  induction idx with
  | nil => intro p hp; cases hp
  | cons q rest ih =>
    rcases q with ⟨k, b⟩
    by_cases hk : k = t
    · subst hk
      rw [removeFromNoteTagIndex, if_pos rfl]
      by_cases hb : b.erase id = []
      · rw [if_pos hb]
        exact fun p hp => h p (List.mem_cons_of_mem _ hp)
      · rw [if_neg hb]
        intro p hp
        rcases List.mem_cons.mp hp with rfl | hp'
        · exact hb
        · exact h p (List.mem_cons_of_mem _ hp')
    · rw [removeFromNoteTagIndex, if_neg hk]
      intro p hp
      rcases List.mem_cons.mp hp with rfl | hp'
      · exact h _ (List.mem_cons_self _ _)
      · exact ih (fun p' hp'' => h p' (List.mem_cons_of_mem _ hp'')) p hp'

/-! ### Lemmas: folding index updates over a tag list -/

theorem memIdx_addAll (id : String) :
    ∀ (ts : List String) (idx : NoteTagIndex) (t' i : String),
      memIdx (ts.foldl (fun acc t => addToNoteTagIndex acc id t) idx) t' i ↔
        memIdx idx t' i ∨ (t' ∈ ts ∧ i = id) := by
  intro ts
  induction ts with
  | nil => intro idx t' i; simp
  | cons t rest ih =>
    intro idx t' i
    rw [List.foldl_cons, ih, memIdx_add]
    constructor
    · rintro ((h | ⟨h1, h2⟩) | ⟨h1, h2⟩)
      · exact Or.inl h
      · exact Or.inr ⟨h1 ▸ List.mem_cons_self t rest, h2⟩
      · exact Or.inr ⟨List.mem_cons_of_mem _ h1, h2⟩
    · rintro (h | ⟨h1, h2⟩)
      · exact Or.inl (Or.inl h)
      · rcases List.mem_cons.mp h1 with rfl | h1'
        · exact Or.inl (Or.inr ⟨rfl, h2⟩)
        · exact Or.inr ⟨h1', h2⟩

theorem keysNodup_addAll (id : String) :
    ∀ (ts : List String) {idx : NoteTagIndex}, (idxKeys idx).Nodup →
      (idxKeys (ts.foldl (fun acc t => addToNoteTagIndex acc id t) idx)).Nodup := by
  intro ts
  induction ts with
  | nil => intro idx h; simpa using h
  | cons t rest ih =>
    intro idx h
    rw [List.foldl_cons]
    exact ih (keysNodup_add id t h)

theorem bucketsNodup_addAll (id : String) :
    ∀ (ts : List String) {idx : NoteTagIndex}, (∀ p ∈ idx, p.2.Nodup) →
      ∀ p ∈ ts.foldl (fun acc t => addToNoteTagIndex acc id t) idx, p.2.Nodup := by
  intro ts
  induction ts with
  | nil => intro idx h; simpa using h
  | cons t rest ih =>
    intro idx h
    rw [List.foldl_cons]
    exact ih (bucketsNodup_add id t h)

theorem bucketsNonempty_addAll (id : String) :
    ∀ (ts : List String) {idx : NoteTagIndex}, (∀ p ∈ idx, p.2 ≠ []) →
      ∀ p ∈ ts.foldl (fun acc t => addToNoteTagIndex acc id t) idx, p.2 ≠ [] := by
  intro ts
  induction ts with
  | nil => intro idx h; simpa using h
  | cons t rest ih =>
    intro idx h
    rw [List.foldl_cons]
    exact ih (bucketsNonempty_add id t h)

theorem memIdx_removeAll (id : String) :
    ∀ (ts : List String) {idx : NoteTagIndex}, (idxKeys idx).Nodup →
      (∀ p ∈ idx, p.2.Nodup) → ∀ (t' i : String),
      (memIdx (ts.foldl (fun acc t => removeFromNoteTagIndex acc id t) idx) t' i ↔
        memIdx idx t' i ∧ ¬(t' ∈ ts ∧ i = id)) := by
  intro ts
  induction ts with
  | nil => intro idx hk hb t' i; simp
  | cons t rest ih =>
    intro idx hk hb t' i
    rw [List.foldl_cons, ih (keysNodup_remove id t hk) (bucketsNodup_remove id t hb),
        memIdx_remove id t hk hb]
    constructor
    · rintro ⟨⟨h1, h2⟩, h3⟩
      refine ⟨h1, ?_⟩
      rintro ⟨hmem, rfl⟩
      rcases List.mem_cons.mp hmem with rfl | hmem'
      · exact h2 ⟨rfl, rfl⟩
      · exact h3 ⟨hmem', rfl⟩
    · rintro ⟨h1, h2⟩
      refine ⟨⟨h1, ?_⟩, ?_⟩
      · rintro ⟨rfl, rfl⟩
        exact h2 ⟨List.mem_cons_self _ _, rfl⟩
      · rintro ⟨hmem, rfl⟩
        exact h2 ⟨List.mem_cons_of_mem _ hmem, rfl⟩

theorem keysNodup_removeAll (id : String) :
    ∀ (ts : List String) {idx : NoteTagIndex}, (idxKeys idx).Nodup →
      (idxKeys (ts.foldl (fun acc t => removeFromNoteTagIndex acc id t) idx)).Nodup := by
  intro ts
  induction ts with
  | nil => intro idx h; simpa using h
  | cons t rest ih =>
    intro idx h
    rw [List.foldl_cons]
    exact ih (keysNodup_remove id t h)

theorem bucketsNodup_removeAll (id : String) :
    ∀ (ts : List String) {idx : NoteTagIndex}, (∀ p ∈ idx, p.2.Nodup) →
      ∀ p ∈ ts.foldl (fun acc t => removeFromNoteTagIndex acc id t) idx, p.2.Nodup := by
  intro ts
  induction ts with
  | nil => intro idx h; simpa using h
  | cons t rest ih =>
    intro idx h
    rw [List.foldl_cons]
    exact ih (bucketsNodup_remove id t h)

theorem bucketsNonempty_removeAll (id : String) :
    ∀ (ts : List String) {idx : NoteTagIndex}, (∀ p ∈ idx, p.2 ≠ []) →
      ∀ p ∈ ts.foldl (fun acc t => removeFromNoteTagIndex acc id t) idx, p.2 ≠ [] := by
  intro ts
  induction ts with
  | nil => intro idx h; simpa using h
  | cons t rest ih =>
    intro idx h
    rw [List.foldl_cons]
    exact ih (bucketsNonempty_remove id t h)

/-! ### Lemmas: the notes array -/

theorem eq_of_mem_of_ids_nodup {l : List Note} {a b : Note}
    (hnd : (l.map Note.id).Nodup) (ha : a ∈ l) (hb : b ∈ l) (hid : a.id = b.id) :
    a = b := by
  induction l with
  | nil => cases ha
  | cons n rest ih =>
    rw [List.map_cons] at hnd
    rcases List.mem_cons.mp ha with rfl | ha'
    · rcases List.mem_cons.mp hb with rfl | hb'
      · rfl
      · exact absurd (hid ▸ List.mem_map_of_mem Note.id hb')
          (List.nodup_cons.mp hnd).1
    · rcases List.mem_cons.mp hb with rfl | hb'
      · exact absurd (hid ▸ List.mem_map_of_mem Note.id ha')
          (List.nodup_cons.mp hnd).1
      · exact ih (List.nodup_cons.mp hnd).2 ha' hb'

theorem findNote_mem {s : Store} {id : String} {note : Note}
    (h : findNote s id = some note) : note ∈ s.notes :=
  List.mem_of_find?_eq_some h

theorem findNote_id {s : Store} {id : String} {note : Note}
    (h : findNote s id = some note) : note.id = id := by
  simpa using List.find?_some h

theorem mem_replaceFirst_iff {l : List Note} {id : String} {note : Note} {f : Note → Note}
    (hnd : (l.map Note.id).Nodup) (hf : l.find? (fun n => n.id == id) = some note)
    {x : Note} :
    x ∈ replaceFirst l id f ↔ (x ∈ l ∧ x.id ≠ id) ∨ x = f note := by
  induction l with
  | nil => cases hf
  | cons n rest ih =>
    rw [List.map_cons] at hnd
    cases hn : (n.id == id) with
    | true =>
      have hnid : n.id = id := by simpa using hn
      have hnote : note = n := by
        rw [List.find?_cons, hn] at hf
        simpa using hf.symm
      subst hnote
      rw [replaceFirst, if_pos hn]
      constructor
      · intro hx
        rcases List.mem_cons.mp hx with rfl | hx'
        · exact Or.inr rfl
        · refine Or.inl ⟨List.mem_cons_of_mem _ hx', ?_⟩
          intro hxid
          exact (List.nodup_cons.mp hnd).1
            ((hxid.trans hnid.symm) ▸ List.mem_map_of_mem Note.id hx')
      · rintro (⟨hx, hxid⟩ | rfl)
        · rcases List.mem_cons.mp hx with rfl | hx'
          · exact absurd hnid hxid
          · exact List.mem_cons_of_mem _ hx'
        · exact List.mem_cons_self _ _
    | false =>
      have hfr : rest.find? (fun n => n.id == id) = some note := by
        rw [List.find?_cons, hn] at hf
        exact hf
      have hnid : n.id ≠ id := by simpa using hn
      rw [replaceFirst, if_neg (by simp [hn])]
      constructor
      · intro hx
        rcases List.mem_cons.mp hx with rfl | hx'
        · exact Or.inl ⟨List.mem_cons_self _ _, hnid⟩
        · rcases (ih (List.nodup_cons.mp hnd).2 hfr).mp hx' with ⟨h1, h2⟩ | h1
          · exact Or.inl ⟨List.mem_cons_of_mem _ h1, h2⟩
          · exact Or.inr h1
      · rintro (⟨hx, hxid⟩ | rfl)
        · rcases List.mem_cons.mp hx with rfl | hx'
          · exact List.mem_cons_self _ _
          · exact List.mem_cons_of_mem _
              ((ih (List.nodup_cons.mp hnd).2 hfr).mpr (Or.inl ⟨hx', hxid⟩))
        · exact List.mem_cons_of_mem _
            ((ih (List.nodup_cons.mp hnd).2 hfr).mpr (Or.inr rfl))

theorem replaceFirst_self_mem {l : List Note} {id : String} {note : Note} (f : Note → Note)
    (hf : l.find? (fun n => n.id == id) = some note) : f note ∈ replaceFirst l id f := by
  induction l with
  | nil => cases hf
  | cons n rest ih =>
    cases hn : (n.id == id) with
    | true =>
      have hnote : note = n := by
        rw [List.find?_cons, hn] at hf
        simpa using hf.symm
      subst hnote
      rw [replaceFirst, if_pos hn]
      exact List.mem_cons_self _ _
    | false =>
      have hfr : rest.find? (fun n => n.id == id) = some note := by
        rw [List.find?_cons, hn] at hf
        exact hf
      rw [replaceFirst, if_neg (by simp [hn])]
      exact List.mem_cons_of_mem _ (ih hfr)

theorem map_id_replaceFirst {l : List Note} {id : String} {f : Note → Note}
    (hid : ∀ n, (f n).id = n.id) :
    (replaceFirst l id f).map Note.id = l.map Note.id := by
  induction l with
  | nil => rfl
  | cons n rest ih =>
    cases hn : (n.id == id) with
    | true =>
      rw [replaceFirst, if_pos hn, List.map_cons, List.map_cons, hid n]
    | false =>
      rw [replaceFirst, if_neg (by simp [hn]), List.map_cons, List.map_cons, ih]

theorem find?_replaceFirst {l : List Note} {id : String} {note : Note} {f : Note → Note}
    (hf : l.find? (fun n => n.id == id) = some note) (hid : ∀ n, (f n).id = n.id) :
    (replaceFirst l id f).find? (fun n => n.id == id) = some (f note) := by
  induction l with
  | nil => cases hf
  | cons n rest ih =>
    cases hn : (n.id == id) with
    | true =>
      have hnote : note = n := by
        rw [List.find?_cons, hn] at hf
        simpa using hf.symm
      rw [replaceFirst, if_pos hn, List.find?_cons]
      have hfn : ((f n).id == id) = true := by rw [hid n]; exact hn
      rw [hfn, hnote]
    | false =>
      have hfr : rest.find? (fun n => n.id == id) = some note := by
        rw [List.find?_cons, hn] at hf
        exact hf
      rw [replaceFirst, if_neg (by simp [hn]), List.find?_cons, hn]
      exact ih hfr

theorem mem_deleteFirst_weak {l : List Note} {id : String} {x : Note}
    (h : x ∈ deleteFirst l id) : x ∈ l := by
  induction l with
  | nil => simpa [deleteFirst] using h
  | cons n rest ih =>
    cases hn : (n.id == id) with
    | true =>
      rw [deleteFirst, if_pos hn] at h
      exact List.mem_cons_of_mem _ h
    | false =>
      rw [deleteFirst, if_neg (by simp [hn])] at h
      rcases List.mem_cons.mp h with rfl | h'
      · exact List.mem_cons_self _ _
      · exact List.mem_cons_of_mem _ (ih h')

theorem mem_deleteFirst_iff {l : List Note} {id : String} {note : Note}
    (hnd : (l.map Note.id).Nodup) (hf : l.find? (fun n => n.id == id) = some note)
    {x : Note} :
    x ∈ deleteFirst l id ↔ x ∈ l ∧ x.id ≠ id := by
  induction l with
  | nil => cases hf
  | cons n rest ih =>
    rw [List.map_cons] at hnd
    cases hn : (n.id == id) with
    | true =>
      have hnid : n.id = id := by simpa using hn
      rw [deleteFirst, if_pos hn]
      constructor
      · intro hx
        refine ⟨List.mem_cons_of_mem _ hx, ?_⟩
        intro hxid
        exact (List.nodup_cons.mp hnd).1
          ((hxid.trans hnid.symm) ▸ List.mem_map_of_mem Note.id hx)
      · rintro ⟨hx, hxid⟩
        rcases List.mem_cons.mp hx with rfl | hx'
        · exact absurd hnid hxid
        · exact hx'
    | false =>
      have hfr : rest.find? (fun n => n.id == id) = some note := by
        rw [List.find?_cons, hn] at hf
        exact hf
      have hnid : n.id ≠ id := by simpa using hn
      rw [deleteFirst, if_neg (by simp [hn])]
      constructor
      · intro hx
        rcases List.mem_cons.mp hx with rfl | hx'
        · exact ⟨List.mem_cons_self _ _, hnid⟩
        · rcases (ih (List.nodup_cons.mp hnd).2 hfr).mp hx' with ⟨h1, h2⟩
          exact ⟨List.mem_cons_of_mem _ h1, h2⟩
      · rintro ⟨hx, hxid⟩
        rcases List.mem_cons.mp hx with rfl | hx'
        · exact List.mem_cons_self _ _
        · exact List.mem_cons_of_mem _
            ((ih (List.nodup_cons.mp hnd).2 hfr).mpr ⟨hx', hxid⟩)

theorem map_id_deleteFirst_nodup {l : List Note} {id : String}
    (hnd : (l.map Note.id).Nodup) : ((deleteFirst l id).map Note.id).Nodup := by
  induction l with
  | nil => simpa [deleteFirst] using hnd
  | cons n rest ih =>
    rw [List.map_cons] at hnd
    cases hn : (n.id == id) with
    | true =>
      rw [deleteFirst, if_pos hn]
      exact (List.nodup_cons.mp hnd).2
    | false =>
      rw [deleteFirst, if_neg (by simp [hn]), List.map_cons]
      refine List.nodup_cons.mpr ⟨?_, ih (List.nodup_cons.mp hnd).2⟩
      intro hmem
      rcases List.mem_map.mp hmem with ⟨x, hx, hxid⟩
      exact (List.nodup_cons.mp hnd).1
        (hxid ▸ List.mem_map_of_mem Note.id (mem_deleteFirst_weak hx))

/-! ### The inductive store invariant -/

/-- Well-formedness of a store state: unique note ids, duplicate-free tag
lists, well-formed index (unique keys, duplicate-free non-empty buckets),
and the two directions of index consistency. -/
structure StoreInv (s : Store) : Prop where
  idsNodup : (s.notes.map Note.id).Nodup
  tagsNodup : ∀ n ∈ s.notes, n.tags.Nodup
  keysNodup : (idxKeys s.noteTags).Nodup
  bucketsNodup : ∀ p ∈ s.noteTags, p.2.Nodup
  bucketsNonempty : ∀ p ∈ s.noteTags, p.2 ≠ []
  consA : ∀ n ∈ s.notes, ∀ t ∈ n.tags, memIdx s.noteTags t n.id
  consB : ∀ t i, memIdx s.noteTags t i → ∃ n ∈ s.notes, n.id = i ∧ t ∈ n.tags

theorem inv_emptyStore : StoreInv emptyStore := by
  refine ⟨?_, ?_, ?_, ?_, ?_, ?_, ?_⟩ <;>
    simp [emptyStore, memIdx, bucketFor]

theorem inv_createNote (s : Store) (freshId content : String) (rawTags : List String)
    (now : String) (hinv : StoreInv s) (hfresh : freshId ∉ s.notes.map Note.id) :
    StoreInv (createNote s freshId content rawTags now).2 := by
  unfold createNote
  by_cases hc : trimStr content = ""
  · rw [if_pos hc]; exact hinv
  · rw [if_neg hc]
    cases hfind : (normalizeTags rawTags).find? (fun t => t.length > 32) with
    | some t => simp only [hfind]; exact hinv
    | none =>
      simp only [hfind]
      by_cases hlen : (normalizeTags rawTags).length > 10
      · rw [if_pos hlen]; exact hinv
      · rw [if_neg hlen]
        set ts := normalizeTags rawTags with hts
        set note : Note :=
          { id := freshId, content := trimStr content, tags := ts,
            createdAt := now, updatedAt := now } with hnote
        refine ⟨?_, ?_, ?_, ?_, ?_, ?_, ?_⟩
        · rw [List.map_append]
          refine List.Nodup.append hinv.idsNodup (by simp) ?_
          intro x hx hxs
          have hxf : x = freshId := by simpa using hxs
          exact hfresh (hxf ▸ hx)
        · intro n hn
          rcases List.mem_append.mp hn with hn' | hn'
          · exact hinv.tagsNodup n hn'
          · have : n = note := by simpa using hn'
            subst this
            exact nodup_normalizeTags
        · exact keysNodup_addAll freshId ts hinv.keysNodup
        · exact bucketsNodup_addAll freshId ts hinv.bucketsNodup
        · exact bucketsNonempty_addAll freshId ts hinv.bucketsNonempty
        · intro n hn t ht
          rcases List.mem_append.mp hn with hn' | hn'
          · exact (memIdx_addAll freshId ts _ _ _).mpr (Or.inl (hinv.consA n hn' t ht))
          · have : n = note := by simpa using hn'
            subst this
            exact (memIdx_addAll freshId ts _ _ _).mpr (Or.inr ⟨ht, rfl⟩)
        · intro t i hmem
          rcases (memIdx_addAll freshId ts _ _ _).mp hmem with h | ⟨ht, rfl⟩
          · rcases hinv.consB t i h with ⟨m, hm, hmi, hmt⟩
            exact ⟨m, List.mem_append.mpr (Or.inl hm), hmi, hmt⟩
          · exact ⟨note, List.mem_append.mpr (Or.inr (by simp)), rfl, ht⟩

theorem inv_addNoteTags (s : Store) (id : String) (rawTags : List String) (now : String)
    (hinv : StoreInv s) : StoreInv (addNoteTags s id rawTags now).2 := by
  unfold addNoteTags
  cases hfn : findNote s id with
  | none => exact hinv
  | some note =>
    cases hfind : (normalizeTags rawTags).find? (fun t => t.length > 32) with
    | some t => simp only [hfind]; exact hinv
    | none =>
      simp only [hfind]
      set newTags := (normalizeTags rawTags).filter (fun t => !note.tags.contains t) with hnew
      by_cases hlim : note.tags.length + newTags.length > 10
      · rw [if_pos hlim]; exact hinv
      · rw [if_neg hlim]
        have hmem := findNote_mem hfn
        have hid := findNote_id hfn
        have hf : s.notes.find? (fun n => n.id == id) = some note := hfn
        have hfid : ∀ n : Note, (({ n with tags := n.tags ++ newTags, updatedAt := now } : Note)).id = n.id :=
          fun n => rfl
        have hnewnodup : newTags.Nodup := List.Nodup.filter _ nodup_normalizeTags
        have hdisj : ∀ a ∈ note.tags, a ∉ newTags := by
          intro a ha hb
          have := (List.mem_filter.mp hb).2
          simp only [Bool.not_eq_true'] at this
          exact (by simpa using this : a ∉ note.tags) ha
        refine ⟨?_, ?_, ?_, ?_, ?_, ?_, ?_⟩
        · rw [map_id_replaceFirst hfid]
          exact hinv.idsNodup
        · intro x hx
          rcases (mem_replaceFirst_iff hinv.idsNodup hf).mp hx with ⟨hxl, -⟩ | rfl
          · exact hinv.tagsNodup x hxl
          · refine List.Nodup.append (hinv.tagsNodup note hmem) hnewnodup ?_
            intro a ha hb
            exact hdisj a ha hb
        · exact keysNodup_addAll note.id newTags hinv.keysNodup
        · exact bucketsNodup_addAll note.id newTags hinv.bucketsNodup
        · exact bucketsNonempty_addAll note.id newTags hinv.bucketsNonempty
        · intro x hx t ht
          rcases (mem_replaceFirst_iff hinv.idsNodup hf).mp hx with ⟨hxl, -⟩ | rfl
          · exact (memIdx_addAll note.id newTags _ _ _).mpr (Or.inl (hinv.consA x hxl t ht))
          · rcases List.mem_append.mp ht with h | h
            · exact (memIdx_addAll note.id newTags _ _ _).mpr (Or.inl (hinv.consA note hmem t h))
            · exact (memIdx_addAll note.id newTags _ _ _).mpr (Or.inr ⟨h, rfl⟩)
        · intro t i hmemi
          rcases (memIdx_addAll note.id newTags _ _ _).mp hmemi with h | ⟨ht, rfl⟩
          · rcases hinv.consB t i h with ⟨m, hm, hmi, hmt⟩
            by_cases hmid : m.id = id
            · have hmn : m = note :=
                eq_of_mem_of_ids_nodup hinv.idsNodup hm hmem (by rw [hmid, hid])
              refine ⟨{ note with tags := note.tags ++ newTags, updatedAt := now },
                replaceFirst_self_mem _ hf, ?_, ?_⟩
              · rw [← hmi, hmn]
              · exact List.mem_append.mpr (Or.inl (hmn ▸ hmt))
            · exact ⟨m, (mem_replaceFirst_iff hinv.idsNodup hf).mpr (Or.inl ⟨hm, hmid⟩), hmi, hmt⟩
          · exact ⟨{ note with tags := note.tags ++ newTags, updatedAt := now },
              replaceFirst_self_mem _ hf, rfl, List.mem_append.mpr (Or.inr ht)⟩

theorem inv_removeNoteTag (s : Store) (id rawTag now : String)
    (hinv : StoreInv s) : StoreInv (removeNoteTag s id rawTag now).2 := by
  unfold removeNoteTag
  cases hfn : findNote s id with
  | none => exact hinv
  | some note =>
    set tagName := normalizeTag rawTag with htn
    by_cases hmemt : tagName ∈ note.tags
    · simp only [if_pos hmemt]
      have hmem := findNote_mem hfn
      have hid := findNote_id hfn
      have hf : s.notes.find? (fun n => n.id == id) = some note := hfn
      have hfid : ∀ n : Note,
          (({ n with tags := n.tags.erase tagName, updatedAt := now } : Note)).id = n.id :=
        fun n => rfl
      refine ⟨?_, ?_, ?_, ?_, ?_, ?_, ?_⟩
      · rw [map_id_replaceFirst hfid]
        exact hinv.idsNodup
      · intro x hx
        rcases (mem_replaceFirst_iff hinv.idsNodup hf).mp hx with ⟨hxl, -⟩ | rfl
        · exact hinv.tagsNodup x hxl
        · exact List.Nodup.erase tagName (hinv.tagsNodup note hmem)
      · exact keysNodup_remove note.id tagName hinv.keysNodup
      · exact bucketsNodup_remove note.id tagName hinv.bucketsNodup
      · exact bucketsNonempty_remove note.id tagName hinv.bucketsNonempty
      · intro x hx t ht
        rcases (mem_replaceFirst_iff hinv.idsNodup hf).mp hx with ⟨hxl, hxid⟩ | rfl
        · refine (memIdx_remove note.id tagName hinv.keysNodup hinv.bucketsNodup t x.id).mpr
            ⟨hinv.consA x hxl t ht, ?_⟩
          rintro ⟨-, hxi⟩
          exact hxid (hxi.trans hid)
        · have hterase := (List.Nodup.mem_erase_iff (hinv.tagsNodup note hmem)).mp ht
          refine (memIdx_remove note.id tagName hinv.keysNodup hinv.bucketsNodup t note.id).mpr
            ⟨hinv.consA note hmem t hterase.2, ?_⟩
          rintro ⟨hteq, -⟩
          exact hterase.1 hteq
      · intro t i hmemi
        rcases (memIdx_remove note.id tagName hinv.keysNodup hinv.bucketsNodup t i).mp hmemi
          with ⟨h, hnot⟩
        rcases hinv.consB t i h with ⟨m, hm, hmi, hmt⟩
        by_cases hmid : m.id = id
        · have hmn : m = note :=
            eq_of_mem_of_ids_nodup hinv.idsNodup hm hmem (by rw [hmid, hid])
          have hti : t ≠ tagName := by
            intro hteq
            exact hnot ⟨hteq, by rw [← hmi, hmn]⟩
          refine ⟨{ note with tags := note.tags.erase tagName, updatedAt := now },
            replaceFirst_self_mem _ hf, ?_, ?_⟩
          · rw [← hmi, hmn]
          · exact (List.Nodup.mem_erase_iff (hinv.tagsNodup note hmem)).mpr
              ⟨hti, hmn ▸ hmt⟩
        · exact ⟨m, (mem_replaceFirst_iff hinv.idsNodup hf).mpr (Or.inl ⟨hm, hmid⟩), hmi, hmt⟩
    · simp only [if_neg hmemt]
      exact hinv

theorem inv_deleteNote (s : Store) (id : String)
    (hinv : StoreInv s) : StoreInv (deleteNote s id).2 := by
  unfold deleteNote
  cases hfn : findNote s id with
  | none => exact hinv
  | some note =>
    have hmem := findNote_mem hfn
    have hid := findNote_id hfn
    have hf : s.notes.find? (fun n => n.id == id) = some note := hfn
    refine ⟨?_, ?_, ?_, ?_, ?_, ?_, ?_⟩
    · exact map_id_deleteFirst_nodup hinv.idsNodup
    · intro x hx
      exact hinv.tagsNodup x (mem_deleteFirst_weak hx)
    · exact keysNodup_removeAll note.id note.tags hinv.keysNodup
    · exact bucketsNodup_removeAll note.id note.tags hinv.bucketsNodup
    · exact bucketsNonempty_removeAll note.id note.tags hinv.bucketsNonempty
    · intro x hx t ht
      rcases (mem_deleteFirst_iff hinv.idsNodup hf).mp hx with ⟨hxl, hxid⟩
      refine (memIdx_removeAll note.id note.tags hinv.keysNodup hinv.bucketsNodup t x.id).mpr
        ⟨hinv.consA x hxl t ht, ?_⟩
      rintro ⟨-, hxi⟩
      exact hxid (hxi.trans hid)
    · intro t i hmemi
      rcases (memIdx_removeAll note.id note.tags hinv.keysNodup hinv.bucketsNodup t i).mp hmemi
        with ⟨h, hnot⟩
      rcases hinv.consB t i h with ⟨m, hm, hmi, hmt⟩
      have hmid : m.id ≠ id := by
        intro hmid
        have hmn : m = note :=
          eq_of_mem_of_ids_nodup hinv.idsNodup hm hmem (by rw [hmid, hid])
        exact hnot ⟨hmn ▸ hmt, by rw [← hmi, hmn]⟩
      exact ⟨m, (mem_deleteFirst_iff hinv.idsNodup hf).mpr ⟨hm, hmid⟩, hmi, hmt⟩

theorem inv_stepOp (s : Store) (op : NoteOp)
    (hinv : StoreInv s) (hfresh : freshOp s op = true) : StoreInv (stepOp s op) := by
  cases op with
  | create id content tags now =>
    refine inv_createNote s id content tags now hinv ?_
    simpa [freshOp] using hfresh
  | addTags id tags now => exact inv_addNoteTags s id tags now hinv
  | removeTag id tag now => exact inv_removeNoteTag s id tag now hinv
  | delete id => exact inv_deleteNote s id hinv

theorem inv_runOps : ∀ (ops : List NoteOp) (s : Store),
    StoreInv s → freshRun s ops = true → StoreInv (runOps s ops) := by
  intro ops
  induction ops with
  | nil => intro s hinv _; exact hinv
  | cons op rest ih =>
    intro s hinv hfr
    rw [freshRun] at hfr
    have h12 : freshOp s op = true ∧ freshRun (stepOp s op) rest = true := by
      simpa using hfr
    exact ih (stepOp s op) (inv_stepOp s op hinv h12.1) h12.2

/-! ### Claim C1: index consistency over all reachable states -/

/-- C1: in every state reachable from the empty store by any sequence of
note create / add-tags / remove-tag / delete requests (failures included),
run with fresh create ids, every tag of every note is indexed under the
note's id, and every (tag, id) pair in the index points to an existing note
that lists the tag. -/
theorem C1_index_consistency (ops : List NoteOp)
    (h : freshRun emptyStore ops = true) :
    IndexConsistent (runOps emptyStore ops) := by
  have hinv := inv_runOps ops emptyStore inv_emptyStore h
  constructor
  · exact hinv.consA
  · intro p hp i hi
    exact hinv.consB p.1 i ⟨p.2, bucketFor_of_mem hinv.keysNodup hp, hi⟩

/-- A sample trace exercising all four operations, including two failing
requests (unknown note id, tag not on the note). -/
def opsC1 : List NoteOp :=
  [.create "n1" "hello" ["Work", "WORK "] "2024-01-01T00:00:00.000Z",
   .addTags "n1" ["idea"] "2024-01-01T00:00:01.000Z",
   .create "n2" "x" ["work"] "2024-01-01T00:00:02.000Z",
   .removeTag "n1" "Work" "2024-01-01T00:00:03.000Z",
   .delete "n2",
   .addTags "nope" ["x"] "2024-01-01T00:00:04.000Z",
   .removeTag "n1" "missing" "2024-01-01T00:00:05.000Z"]

theorem C1_index_consistency_witness :
    freshRun emptyStore opsC1 = true ∧ IndexConsistent (runOps emptyStore opsC1) :=
  ⟨by decide, C1_index_consistency opsC1 (by decide)⟩

/-! ### Claim C2: empty buckets never persist -/

/-- C2: in every reachable state every tag key of the index has a non-empty
bucket, and the scenario: creating a single note with tag "solo" and then
deleting it leaves `GET /tags` without "solo" (no photo tags present). -/
theorem C2_empty_buckets (ops : List NoteOp) (h : freshRun emptyStore ops = true) :
    (∀ p ∈ (runOps emptyStore ops).noteTags, p.2 ≠ []) ∧
    (∀ id content t1, trimStr content ≠ "" →
      "solo" ∉ getTagsNames []
        (runOps emptyStore [.create id content ["solo"] t1, .delete id])) := by
  constructor
  · exact (inv_runOps ops emptyStore inv_emptyStore h).bucketsNonempty
  · intro id content t1 hc
    have e1 : createNote emptyStore id content ["solo"] t1 =
        (.ok 201 { id := id, content := trimStr content, tags := ["solo"],
                   createdAt := t1, updatedAt := t1 },
         { notes := [{ id := id, content := trimStr content, tags := ["solo"],
                       createdAt := t1, updatedAt := t1 }],
           noteTags := [("solo", [id])] }) := by
      unfold createNote
      rw [if_neg hc]
      rfl
    have hs1 : runOps emptyStore [.create id content ["solo"] t1, .delete id] =
        (deleteNote { notes := [{ id := id, content := trimStr content, tags := ["solo"],
                                  createdAt := t1, updatedAt := t1 }],
                      noteTags := [("solo", [id])] } id).2 := by
      simp only [runOps, List.foldl_cons, List.foldl_nil, stepOp, e1]
    have hfind2 : findNote
        { notes := [{ id := id, content := trimStr content, tags := ["solo"],
                      createdAt := t1, updatedAt := t1 }],
          noteTags := [("solo", [id])] } id = some
        { id := id, content := trimStr content, tags := ["solo"],
          createdAt := t1, updatedAt := t1 } := by
      simp [findNote, List.find?]
    have e2 : (deleteNote
        { notes := [{ id := id, content := trimStr content, tags := ["solo"],
                      createdAt := t1, updatedAt := t1 }],
          noteTags := [("solo", [id])] } id).2 = emptyStore := by
      unfold deleteNote
      rw [hfind2]
      simp [removeFromNoteTagIndex, deleteFirst, List.erase_cons_head, emptyStore]
    rw [hs1, e2]
    simp [getTagsNames, dedupFirst, dedupAux, emptyStore]

theorem C2_empty_buckets_witness :
    freshRun emptyStore opsC1 = true ∧
      ((∀ p ∈ (runOps emptyStore opsC1).noteTags, p.2 ≠ []) ∧
       (∀ id content t1, trimStr content ≠ "" →
         "solo" ∉ getTagsNames []
           (runOps emptyStore [.create id content ["solo"] t1, .delete id]))) :=
  ⟨by decide, C2_empty_buckets opsC1 (by decide)⟩

/-! ### Shape lemmas for the add-tags handler -/

theorem addNoteTags_not_found {s : Store} {id : String} {rawTags : List String} {now : String}
    (hfn : findNote s id = none) :
    addNoteTags s id rawTags now = (.err 404 "Note not found", s) := by
  unfold addNoteTags
  rw [hfn]

theorem addNoteTags_err_len {s : Store} {id : String} {rawTags : List String} {now : String}
    {note : Note} {t : String} (hfn : findNote s id = some note)
    (hfind : (normalizeTags rawTags).find? (fun t => t.length > 32) = some t) :
    addNoteTags s id rawTags now =
      (.err 400 ("Tag \"" ++ t ++ "\" exceeds 32 characters"), s) := by
  unfold addNoteTags
  rw [hfn]
  simp only [hfind]

theorem addNoteTags_err_limit {s : Store} {id : String} {rawTags : List String} {now : String}
    {note : Note} (hfn : findNote s id = some note)
    (hfind : (normalizeTags rawTags).find? (fun t => t.length > 32) = none)
    (hlim : note.tags.length +
      ((normalizeTags rawTags).filter (fun t => !note.tags.contains t)).length > 10) :
    addNoteTags s id rawTags now =
      (.err 400 "Tag limit exceeded: a note can have at most 10 tags", s) := by
  unfold addNoteTags
  rw [hfn]
  simp only [hfind, if_pos hlim]

theorem addNoteTags_ok {s : Store} {id : String} {rawTags : List String} {now : String}
    {note : Note} (hfn : findNote s id = some note)
    (hfind : (normalizeTags rawTags).find? (fun t => t.length > 32) = none)
    (hlim : ¬ note.tags.length +
      ((normalizeTags rawTags).filter (fun t => !note.tags.contains t)).length > 10) :
    addNoteTags s id rawTags now =
      (.ok 200 { note with
          tags := note.tags ++ (normalizeTags rawTags).filter (fun t => !note.tags.contains t),
          updatedAt := now },
       { notes := replaceFirst s.notes id (fun n => { n with
           tags := n.tags ++ (normalizeTags rawTags).filter (fun t => !note.tags.contains t),
           updatedAt := now }),
         noteTags := ((normalizeTags rawTags).filter (fun t => !note.tags.contains t)).foldl
           (fun i t => addToNoteTagIndex i note.id t) s.noteTags }) := by
  unfold addNoteTags
  rw [hfn]
  simp only [hfind, if_neg hlim]

/-! ### Claim C3: add-tags validation -/

/-- C3: for an existing note, `POST /notes/:id/tags` fails 400 with the
length error whenever some normalized incoming tag exceeds 32 characters
(before any limit consideration), and — when all incoming tags are within
length — fails 400 "Tag limit exceeded" exactly when the existing tag count
plus the count of genuinely new (normalized, deduplicated, not already
present) tags exceeds 10. -/
theorem C3_addTags_validation (s : Store) (id : String) (rawTags : List String)
    (now : String) (note : Note) (hfn : findNote s id = some note) :
    ((∃ t ∈ normalizeTags rawTags, t.length > 32) →
      ∃ t ∈ normalizeTags rawTags, t.length > 32 ∧
        (addNoteTags s id rawTags now).1 =
          .err 400 ("Tag \"" ++ t ++ "\" exceeds 32 characters")) ∧
    ((∀ t ∈ normalizeTags rawTags, t.length ≤ 32) →
      ((addNoteTags s id rawTags now).1 =
          .err 400 "Tag limit exceeded: a note can have at most 10 tags" ↔
        note.tags.length +
          ((normalizeTags rawTags).filter (fun t => !note.tags.contains t)).length > 10)) := by
  constructor
  · intro hex
    have hsome : ((normalizeTags rawTags).find? (fun t => t.length > 32)).isSome := by
      rw [List.find?_isSome]
      rcases hex with ⟨t, ht, hlen⟩
      exact ⟨t, ht, by simpa using hlen⟩
    rcases Option.isSome_iff_exists.mp hsome with ⟨t, hfind⟩
    refine ⟨t, List.mem_of_find?_eq_some hfind, by simpa using List.find?_some hfind, ?_⟩
    rw [addNoteTags_err_len hfn hfind]
  · intro hall
    have hfind : (normalizeTags rawTags).find? (fun t => t.length > 32) = none := by
      rw [List.find?_eq_none]
      intro t ht
      simpa using Nat.not_lt.mpr (hall t ht)
    by_cases hlim : note.tags.length +
        ((normalizeTags rawTags).filter (fun t => !note.tags.contains t)).length > 10
    · rw [addNoteTags_err_limit hfn hfind hlim]
      simpa using hlim
    · rw [addNoteTags_ok hfn hfind hlim]
      simpa using hlim

/-- A store holding one note that already carries 10 tags. -/
def storeTen : Store :=
  { notes := [{ id := "n1", content := "Full",
                tags := ["t0", "t1", "t2", "t3", "t4", "t5", "t6", "t7", "t8", "t9"],
                createdAt := "T0", updatedAt := "T0" }],
    noteTags := [("t0", ["n1"]), ("t1", ["n1"]), ("t2", ["n1"]), ("t3", ["n1"]),
                 ("t4", ["n1"]), ("t5", ["n1"]), ("t6", ["n1"]), ("t7", ["n1"]),
                 ("t8", ["n1"]), ("t9", ["n1"])] }

theorem C3_addTags_validation_witness :
    (addNoteTags storeTen "n1" ["overflow"] "T1").1 =
      .err 400 "Tag limit exceeded: a note can have at most 10 tags" :=
  ((C3_addTags_validation storeTen "n1" ["overflow"] "T1"
      { id := "n1", content := "Full",
        tags := ["t0", "t1", "t2", "t3", "t4", "t5", "t6", "t7", "t8", "t9"],
        createdAt := "T0", updatedAt := "T0" }
      (by decide)).2 (by decide)).mpr (by decide)

/-! ### Shape lemmas for the remove-tag handler -/

theorem removeNoteTag_not_found {s : Store} {id rawTag now : String}
    (hfn : findNote s id = none) :
    removeNoteTag s id rawTag now = (.err 404 "Note not found", s) := by
  unfold removeNoteTag
  rw [hfn]

theorem removeNoteTag_err_notag {s : Store} {id rawTag now : String} {note : Note}
    (hfn : findNote s id = some note) (hmem : normalizeTag rawTag ∉ note.tags) :
    removeNoteTag s id rawTag now =
      (.err 404 ("Tag '" ++ normalizeTag rawTag ++ "' not found on this note"), s) := by
  unfold removeNoteTag
  rw [hfn]
  simp only [if_neg hmem]

theorem removeNoteTag_ok {s : Store} {id rawTag now : String} {note : Note}
    (hfn : findNote s id = some note) (hmem : normalizeTag rawTag ∈ note.tags) :
    removeNoteTag s id rawTag now =
      (.ok 200 { note with tags := note.tags.erase (normalizeTag rawTag), updatedAt := now },
       { notes := replaceFirst s.notes id (fun n => { n with
           tags := n.tags.erase (normalizeTag rawTag), updatedAt := now }),
         noteTags := removeFromNoteTagIndex s.noteTags note.id (normalizeTag rawTag) }) := by
  unfold removeNoteTag
  rw [hfn]
  simp only [if_pos hmem]

/-! ### Claim C5 (corrected): add-tags with zero new tags -/

/-- A one-note store: note `n1` with the single tag `a`. -/
def noteA : Note :=
  { id := "n1", content := "c", tags := ["a"], createdAt := "T0", updatedAt := "T0" }

/-- The store holding just `noteA`, index consistent. -/
def storeA : Store := { notes := [noteA], noteTags := [("a", ["n1"])] }

/-- C5 counterexample: adding only the already-present tag `a` is accepted
with 200 and leaves the tag list and index unchanged, but the note's
`updatedAt` is overwritten with the current time (`T1` ≠ `T0`), so the
claim's "does not bump the note's updatedAt timestamp" is false. -/
theorem C5_addTags_noop_counterexample :
    (addNoteTags storeA "n1" ["a"] "T1").1 =
      .ok 200 { id := "n1", content := "c", tags := ["a"], createdAt := "T0", updatedAt := "T1" } ∧
    (addNoteTags storeA "n1" ["a"] "T1").2 =
      { notes := [{ id := "n1", content := "c", tags := ["a"], createdAt := "T0", updatedAt := "T1" }],
        noteTags := [("a", ["n1"])] } ∧
    "T1" ≠ "T0" := by
  refine ⟨by decide, by decide, by decide⟩

/-- C5 as amended: for an existing note with at most 10 tags, a tag list
that normalizes to zero genuinely new tags (each entry whitespace-only or
already present) succeeds with 200 and leaves the note's tag list and the
index unchanged — but the handler still sets the note's `updatedAt` to the
current time unconditionally. -/
theorem C5_addTags_noop (s : Store) (id : String) (rawTags : List String)
    (now : String) (note : Note) (hfn : findNote s id = some note)
    (hlen : ∀ t ∈ normalizeTags rawTags, t.length ≤ 32)
    (hnew : (normalizeTags rawTags).filter (fun t => !note.tags.contains t) = [])
    (hcap : note.tags.length ≤ 10) :
    (addNoteTags s id rawTags now).1 = .ok 200 { note with updatedAt := now } ∧
    (addNoteTags s id rawTags now).2.noteTags = s.noteTags ∧
    (addNoteTags s id rawTags now).2.notes =
      replaceFirst s.notes id (fun n => { n with updatedAt := now }) := by
  have hfind : (normalizeTags rawTags).find? (fun t => t.length > 32) = none := by
    rw [List.find?_eq_none]
    intro t ht
    simpa using Nat.not_lt.mpr (hlen t ht)
  have hlim : ¬ note.tags.length +
      ((normalizeTags rawTags).filter (fun t => !note.tags.contains t)).length > 10 := by
    rw [hnew]
    simpa using hcap
  rw [addNoteTags_ok hfn hfind hlim]
  refine ⟨?_, ?_, ?_⟩
  · rw [hnew]
    simp
  · rw [hnew]
    rfl
  · rw [hnew]
    have hfe : (fun n : Note => { n with tags := n.tags ++ [], updatedAt := now }) =
        (fun n : Note => { n with updatedAt := now }) := by
      funext n
      simp
    rw [hfe]

theorem C5_addTags_noop_witness :
    (addNoteTags storeA "n1" [" ", "a"] "T1").1 = .ok 200 { noteA with updatedAt := "T1" } ∧
    (addNoteTags storeA "n1" [" ", "a"] "T1").2.noteTags = storeA.noteTags ∧
    (addNoteTags storeA "n1" [" ", "a"] "T1").2.notes =
      replaceFirst storeA.notes "n1" (fun n => { n with updatedAt := "T1" }) :=
  C5_addTags_noop storeA "n1" [" ", "a"] "T1" noteA (by decide) (by decide) (by decide)
    (by decide)

/-! ### Claim C6 (corrected): add/remove round-trip -/

/-- C6 counterexample: with tag `a` already on the note, `addTags(id,["a"])`
is a no-op on the tag list but `removeTag(id,"a")` then removes `a`, so the
pair of calls does not return the note to its pre-call tag list. -/
theorem C6_roundtrip_counterexample :
    findNote (removeNoteTag (addNoteTags storeA "n1" ["a"] "T1").2 "n1" "a" "T2").2 "n1" =
      some { id := "n1", content := "c", tags := [], createdAt := "T0", updatedAt := "T2" } ∧
    noteA.tags = ["a"] := by
  refine ⟨by decide, by decide⟩

/-- C6 as amended: for an existing note and a tag string `T` whose
normalized form is not already on the note, `addTags(id,[T])` followed by
`removeTag(id,T)` leaves the note's stored tag list exactly as before, in
the same order (this holds whether the add succeeds or fails validation;
when the normalized `T` is already present the pair instead removes it). -/
theorem C6_roundtrip (s : Store) (id T now1 now2 : String) (note : Note)
    (hfn : findNote s id = some note)
    (hnotin : normalizeTag T ∉ note.tags) :
    ∃ n', findNote (removeNoteTag (addNoteTags s id [T] now1).2 id T now2).2 id = some n' ∧
      n'.tags = note.tags := by
  by_cases hz : (normalizeTag T).length = 0
  · -- the tag normalizes to the empty string and is silently dropped
    have hp : (decide ((normalizeTag T).length > 0)) = false := by simp [hz]
    have hinc : normalizeTags [T] = [] := by
      unfold normalizeTags
      simp [hp, dedupFirst, dedupAux]
    have hfind : (normalizeTags [T]).find? (fun t => t.length > 32) = none := by
      rw [hinc]; rfl
    have hnew : (normalizeTags [T]).filter (fun t => !note.tags.contains t) = [] := by
      rw [hinc]; rfl
    by_cases hlim : note.tags.length +
        ((normalizeTags [T]).filter (fun t => !note.tags.contains t)).length > 10
    · rw [addNoteTags_err_limit hfn hfind hlim, removeNoteTag_err_notag hfn hnotin]
      exact ⟨note, hfn, rfl⟩
    · rw [addNoteTags_ok hfn hfind hlim]
      have hfn2 : findNote
          { notes := replaceFirst s.notes id (fun n => { n with
              tags := n.tags ++ (normalizeTags [T]).filter (fun t => !note.tags.contains t),
              updatedAt := now1 }),
            noteTags := ((normalizeTags [T]).filter (fun t => !note.tags.contains t)).foldl
              (fun i t => addToNoteTagIndex i note.id t) s.noteTags } id =
          some { note with
            tags := note.tags ++ (normalizeTags [T]).filter (fun t => !note.tags.contains t),
            updatedAt := now1 } :=
        find?_replaceFirst hfn (fun n => rfl)
      have hnotin2 : normalizeTag T ∉
          ({ note with
            tags := note.tags ++ (normalizeTags [T]).filter (fun t => !note.tags.contains t),
            updatedAt := now1 } : Note).tags := by
        rw [hnew]
        simpa using hnotin
      rw [removeNoteTag_err_notag hfn2 hnotin2]
      refine ⟨_, hfn2, ?_⟩
      rw [hnew]
      simp
  · -- the tag survives normalization
    have hp : (decide ((normalizeTag T).length > 0)) = true := by
      simpa using Nat.pos_of_ne_zero hz
    have hinc : normalizeTags [T] = [normalizeTag T] := by
      unfold normalizeTags
      simp [hp, dedupFirst, dedupAux]
    by_cases h32 : (normalizeTag T).length > 32
    · have hfind : (normalizeTags [T]).find? (fun t => t.length > 32) =
          some (normalizeTag T) := by
        rw [hinc, List.find?_singleton, if_pos (by simpa using h32)]
      rw [addNoteTags_err_len hfn hfind, removeNoteTag_err_notag hfn hnotin]
      exact ⟨note, hfn, rfl⟩
    · have hfind : (normalizeTags [T]).find? (fun t => t.length > 32) = none := by
        rw [hinc, List.find?_singleton, if_neg (by simpa using h32)]
      have hcont : note.tags.contains (normalizeTag T) = false := by
        simpa using hnotin
      have hnew : (normalizeTags [T]).filter (fun t => !note.tags.contains t) =
          [normalizeTag T] := by
        rw [hinc]
        simp [List.filter_singleton, hnotin]
      by_cases hlim : note.tags.length +
          ((normalizeTags [T]).filter (fun t => !note.tags.contains t)).length > 10
      · rw [addNoteTags_err_limit hfn hfind hlim, removeNoteTag_err_notag hfn hnotin]
        exact ⟨note, hfn, rfl⟩
      · rw [addNoteTags_ok hfn hfind hlim]
        have hfn2 : findNote
            { notes := replaceFirst s.notes id (fun n => { n with
                tags := n.tags ++ (normalizeTags [T]).filter (fun t => !note.tags.contains t),
                updatedAt := now1 }),
              noteTags := ((normalizeTags [T]).filter (fun t => !note.tags.contains t)).foldl
                (fun i t => addToNoteTagIndex i note.id t) s.noteTags } id =
            some { note with
              tags := note.tags ++ (normalizeTags [T]).filter (fun t => !note.tags.contains t),
              updatedAt := now1 } :=
          find?_replaceFirst hfn (fun n => rfl)
        have hmem2 : normalizeTag T ∈
            ({ note with
              tags := note.tags ++ (normalizeTags [T]).filter (fun t => !note.tags.contains t),
              updatedAt := now1 } : Note).tags := by
          rw [hnew]
          simp
        rw [removeNoteTag_ok hfn2 hmem2]
        have hfn3 := find?_replaceFirst hfn2
          (f := fun n => { n with tags := n.tags.erase (normalizeTag T), updatedAt := now2 })
          (fun n => rfl)
        refine ⟨_, hfn3, ?_⟩
        simp only [hnew]
        rw [List.erase_append_right _ hnotin, List.erase_cons_head, List.append_nil]

theorem C6_roundtrip_witness :
    ∃ n', findNote (removeNoteTag (addNoteTags storeA "n1" ["b"] "T1").2 "n1" "b" "T2").2 "n1" =
      some n' ∧ n'.tags = noteA.tags :=
  C6_roundtrip storeA "n1" "b" "T1" "T2" noteA (by decide) (by decide)

/-! ### Claim C4: notes pagination -/

/-- C4: `GET /notes` caps the effective limit at 100, reports `total` as the
pre-pagination count, returns the slice `[(page-1)*limit, page*limit)` of
the filtered-and-sorted list (for 1-indexed pages), and an out-of-range
page yields an empty slice rather than an error. -/
theorem C4_notes_pagination (s : Store) (q : NotesQuery) (hpage : 1 ≤ q.page) :
    (getNotes s q).limit = min q.limit 100 ∧
    (getNotes s q).total = (notesPipeline s q).length ∧
    (getNotes s q).notes =
      ((notesPipeline s q).drop ((q.page - 1) * min q.limit 100)).take
        (q.page * min q.limit 100 - (q.page - 1) * min q.limit 100) ∧
    ((notesPipeline s q).length ≤ (q.page - 1) * min q.limit 100 →
      (getNotes s q).notes = []) := by
  have htake : q.page * min q.limit 100 - (q.page - 1) * min q.limit 100 =
      min q.limit 100 := by
    rcases Nat.exists_eq_add_of_le hpage with ⟨m, hm⟩
    rw [hm]
    have h1 : 1 + m - 1 = m := by omega
    rw [h1, Nat.add_mul, Nat.one_mul, Nat.add_sub_cancel]
  refine ⟨rfl, rfl, ?_, ?_⟩
  · rw [htake]
    rfl
  · intro h
    show ((notesPipeline s q).drop ((q.page - 1) * min q.limit 100)).take (min q.limit 100) = []
    rw [List.drop_eq_nil_of_le h, List.take_nil]

/-- A four-note store with no tags. -/
def store4 : Store :=
  { notes :=
      [{ id := "n1", content := "a", tags := [], createdAt := "2024-01-01", updatedAt := "2024-01-01" },
       { id := "n2", content := "b", tags := [], createdAt := "2024-01-02", updatedAt := "2024-01-02" },
       { id := "n3", content := "c", tags := [], createdAt := "2024-01-03", updatedAt := "2024-01-03" },
       { id := "n4", content := "d", tags := [], createdAt := "2024-01-04", updatedAt := "2024-01-04" }],
    noteTags := [] }

/-- Query `GET /notes?page=99&limit=10` with default sort and order. -/
def q99 : NotesQuery :=
  { tag := none, search := none, sort := "createdAt", order := "desc", page := 99, limit := 10 }

theorem C4_notes_pagination_witness :
    (getNotes store4 q99).notes = [] ∧ (getNotes store4 q99).total = 4 :=
  ⟨(C4_notes_pagination store4 q99 (by decide)).2.2.2 (by decide), by decide⟩

/-! ### Claim C7: sort field and direction -/

/-- C7: the `GET /notes` comparator sorts on `createdAt` unless
`sort=updatedAt`, ascending order is the `localeCompare` of the selected
field, any non-`asc` order (including the default) is exactly the negation
of the ascending comparator — one code path, so tie-breaking is
consistent — and in particular `desc` is that negation. -/
theorem C7_sort_direction (sort ord : String) (a b : Note) :
    noteCmp sort "desc" a b = - noteCmp sort "asc" a b ∧
    (ord ≠ "asc" → noteCmp sort ord a b = - noteCmp sort "asc" a b) ∧
    (sort ≠ "updatedAt" → noteCmp sort "asc" a b = localeCmp a.createdAt b.createdAt) ∧
    noteCmp "updatedAt" "asc" a b = localeCmp a.updatedAt b.updatedAt := by
  refine ⟨?_, ?_, ?_, ?_⟩
  · unfold noteCmp
    rw [if_neg (by decide), if_pos rfl]
  · intro h
    unfold noteCmp
    rw [if_neg h, if_pos rfl]
  · intro h
    unfold noteCmp noteField
    simp [h]
  · unfold noteCmp noteField
    simp

theorem C7_sort_direction_witness :
    noteCmp "createdAt" "desc" noteA noteA = - noteCmp "createdAt" "asc" noteA noteA ∧
    noteCmp "createdAt" "rand" noteA noteA = - noteCmp "createdAt" "asc" noteA noteA ∧
    noteCmp "createdAt" "asc" noteA noteA = localeCmp noteA.createdAt noteA.createdAt :=
  ⟨(C7_sort_direction "createdAt" "rand" noteA noteA).1,
   (C7_sort_direction "createdAt" "rand" noteA noteA).2.1 (by decide),
   (C7_sort_direction "createdAt" "rand" noteA noteA).2.2.1 (by decide)⟩

/-! ### Claim C8 (corrected): photo rating validation -/

/-- A PATCH body carrying only a `rating` field. -/
def ratingBody (r : Option (Option ℚ)) : PhotoPatchBody :=
  { title := none, description := none, rating := r, date_taken := none }

theorem findPhoto_id {photos : List Photo} {id : Nat} {p : Photo}
    (h : findPhoto photos id = some p) : p.id = id := by
  simpa using List.find?_some h

theorem findPhoto_replaceFirst {photos : List Photo} {id : Nat} {p p' : Photo}
    (hfp : findPhoto photos id = some p) (hid : p'.id = id) :
    findPhoto (replaceFirstPhoto photos id p') id = some p' := by
  induction photos with
  | nil => cases hfp
  | cons q rest ih =>
    cases hq : (q.id == id) with
    | true =>
      rw [replaceFirstPhoto, if_pos hq]
      unfold findPhoto
      rw [List.find?_cons]
      have hpid : (p'.id == id) = true := by simpa using hid
      rw [hpid]
    | false =>
      have hfr : findPhoto rest id = some p := by
        unfold findPhoto at hfp ⊢
        rw [List.find?_cons, hq] at hfp
        exact hfp
      rw [replaceFirstPhoto, if_neg (by simp [hq])]
      unfold findPhoto
      rw [List.find?_cons, hq]
      exact ih hfr

theorem patchPhoto_rating_null {photos : List Photo} {id : Nat} {now : String} {p : Photo}
    (hfp : findPhoto photos id = some p) :
    patchPhoto photos id (ratingBody (some none)) now =
      (.ok 200 { p with rating := none, updated_at := now },
       replaceFirstPhoto photos id { p with rating := none, updated_at := now }) := by
  simp only [patchPhoto, ratingBody, hfp]

theorem patchPhoto_rating_ok {photos : List Photo} {id : Nat} {now : String} {p : Photo}
    (hfp : findPhoto photos id = some p) (x : ℚ) (hx : ¬(x < 1 ∨ x > 5)) :
    patchPhoto photos id (ratingBody (some (some x))) now =
      (.ok 200 { p with rating := some x, updated_at := now },
       replaceFirstPhoto photos id { p with rating := some x, updated_at := now }) := by
  simp only [patchPhoto, ratingBody, hfp]
  rw [if_neg hx]

theorem patchPhoto_rating_err {photos : List Photo} {id : Nat} {now : String} {p : Photo}
    (hfp : findPhoto photos id = some p) (x : ℚ) (hx : x < 1 ∨ x > 5) :
    patchPhoto photos id (ratingBody (some (some x))) now =
      (.err 400 "Rating must be between 1 and 5", replaceFirstPhoto photos id p) := by
  simp only [patchPhoto, ratingBody, hfp]
  rw [if_pos hx]

/-- A photo with no metadata set. -/
def p0 : Photo :=
  { id := 1, title := none, description := none, rating := none,
    date_taken := none, updated_at := "T0" }

/-- C8 counterexample: `PATCH /photos/1` with `rating: 3.5` is accepted with
200 and the non-integer rating 7/2 is stored, contradicting the claim that
every non-integer numeric value (such as 3.5) is rejected with 400. -/
theorem C8_photo_rating_counterexample :
    (patchPhoto [p0] 1 (ratingBody (some (some (7/2)))) "T1").1 =
      .ok 200 { p0 with rating := some (7/2), updated_at := "T1" } := by
  rw [patchPhoto_rating_ok (show findPhoto [p0] 1 = some p0 from rfl) (7/2) (by norm_num)]

/-- C8 as amended: for an existing photo, a PATCH carrying only `rating`
accepts `null` and every rational in [1,5] — integrality is never checked,
so non-integers like 3.5 pass — and rejects exactly the numeric values
outside [1,5] with 400 "Rating must be between 1 and 5", leaving the photo
(and in particular its rating) unchanged on rejection. -/
theorem C8_photo_rating (photos : List Photo) (id : Nat) (now : String) (p : Photo)
    (hfp : findPhoto photos id = some p) :
    (patchPhoto photos id (ratingBody (some none)) now).1 =
      .ok 200 { p with rating := none, updated_at := now } ∧
    (∀ x : ℚ, ¬(x < 1 ∨ x > 5) →
      (patchPhoto photos id (ratingBody (some (some x))) now).1 =
        .ok 200 { p with rating := some x, updated_at := now }) ∧
    (∀ x : ℚ, (x < 1 ∨ x > 5) →
      (patchPhoto photos id (ratingBody (some (some x))) now).1 =
        .err 400 "Rating must be between 1 and 5" ∧
      findPhoto (patchPhoto photos id (ratingBody (some (some x))) now).2 id = some p) := by
  refine ⟨?_, ?_, ?_⟩
  · rw [patchPhoto_rating_null hfp]
  · intro x hx
    rw [patchPhoto_rating_ok hfp x hx]
  · intro x hx
    rw [patchPhoto_rating_err hfp x hx]
    exact ⟨rfl, findPhoto_replaceFirst hfp (findPhoto_id hfp)⟩

theorem C8_photo_rating_witness :
    (patchPhoto [p0] 1 (ratingBody (some (some 6))) "T1").1 =
      .err 400 "Rating must be between 1 and 5" ∧
    findPhoto (patchPhoto [p0] 1 (ratingBody (some (some 6))) "T1").2 1 = some p0 :=
  (C8_photo_rating [p0] 1 "T1" p0 rfl).2.2 6 (by norm_num)

/-! ### Claim C9 (corrected): album name uniqueness -/

/-- C9 counterexample: the duplicate check compares the raw request name
against stored names while storage trims, so creating "Foo" and then
" Foo" (leading space) yields two distinct albums both stored as "Foo" —
the stored-name uniqueness invariant fails, and the second create is not
rejected with 409. -/
theorem C9_album_uniqueness_counterexample :
    (createAlbum (createAlbum [] 1 "Foo" none "T0").2.1 2 " Foo" none "T1").2.1 =
      [{ id := 1, name := "Foo", description := none, cover_photo_id := none,
         created_at := "T0", updated_at := "T0" },
       { id := 2, name := "Foo", description := none, cover_photo_id := none,
         created_at := "T1", updated_at := "T1" }] ∧
    (1 : Nat) ≠ 2 := by
  refine ⟨by decide, by decide⟩

theorem mem_replaceFirstAlbum_weak {l : List Album} {id : Nat} {a' x : Album}
    (h : x ∈ replaceFirstAlbum l id a') : x ∈ l ∨ x = a' := by
  induction l with
  | nil => simp [replaceFirstAlbum] at h
  | cons q rest ih =>
    cases hq : (q.id == id) with
    | true =>
      rw [replaceFirstAlbum, if_pos hq] at h
      rcases List.mem_cons.mp h with rfl | h'
      · exact Or.inr rfl
      · exact Or.inl (List.mem_cons_of_mem _ h')
    | false =>
      rw [replaceFirstAlbum, if_neg (by simp [hq])] at h
      rcases List.mem_cons.mp h with rfl | h'
      · exact Or.inl (List.mem_cons_self _ _)
      · rcases ih h' with h'' | h''
        · exact Or.inl (List.mem_cons_of_mem _ h'')
        · exact Or.inr h''

theorem replaceFirstAlbum_names_nodup {albums : List Album} {id : Nat} {a' : Album}
    (hnd : (albums.map Album.name).Nodup)
    (hids : (albums.map Album.id).Nodup)
    (hother : ∀ a ∈ albums, a.id ≠ id → a.name ≠ a'.name) :
    ((replaceFirstAlbum albums id a').map Album.name).Nodup := by
  induction albums with
  | nil => simp [replaceFirstAlbum]
  | cons q rest ih =>
    rw [List.map_cons] at hnd hids
    cases hq : (q.id == id) with
    | true =>
      have hqid : q.id = id := by simpa using hq
      rw [replaceFirstAlbum, if_pos hq, List.map_cons]
      refine List.nodup_cons.mpr ⟨?_, (List.nodup_cons.mp hnd).2⟩
      intro hmem
      rcases List.mem_map.mp hmem with ⟨a, ha, haeq⟩
      have haid : a.id ≠ id := by
        intro he
        apply (List.nodup_cons.mp hids).1
        have hmm : a.id ∈ rest.map Album.id := List.mem_map_of_mem Album.id ha
        rw [he, ← hqid] at hmm
        exact hmm
      exact hother a (List.mem_cons_of_mem _ ha) haid haeq
    | false =>
      have hqid : q.id ≠ id := by simpa using hq
      rw [replaceFirstAlbum, if_neg (by simp [hq]), List.map_cons]
      refine List.nodup_cons.mpr
        ⟨?_, ih (List.nodup_cons.mp hnd).2 (List.nodup_cons.mp hids).2
          (fun a ha hai => hother a (List.mem_cons_of_mem _ ha) hai)⟩
      intro hmem
      rcases List.mem_map.mp hmem with ⟨x, hx, hxeq⟩
      rcases mem_replaceFirstAlbum_weak hx with hx' | rfl
      · exact (List.nodup_cons.mp hnd).1 (hxeq ▸ List.mem_map_of_mem Album.name hx')
      · exact hother q (List.mem_cons_self _ _) hqid hxeq.symm

theorem patchAlbum_rename_ok {albums : List Album} {id : Nat} {nm : String}
    {d2 : Option (Option String)} {now : String} {album : Album}
    (hfa : findAlbum albums id = some album) (h0 : trimStr nm ≠ "")
    (hany : albums.any (fun a => a.name == nm && a.id != id) = false) :
    ∃ a' : Album, a'.name = trimStr nm ∧
      patchAlbum albums id (some nm) d2 now = (.ok 200 a', replaceFirstAlbum albums id a') := by
  cases d2 with
  | none =>
    refine ⟨{ album with name := trimStr nm, updated_at := now }, rfl, ?_⟩
    unfold patchAlbum
    rw [hfa]
    simp only [if_neg h0, hany]
    simp
  | some d =>
    refine ⟨{ album with name := trimStr nm, description := d, updated_at := now }, rfl, ?_⟩
    unfold patchAlbum
    rw [hfa]
    simp only [if_neg h0, hany]
    simp

/-- C9 as amended: creating an album whose *raw request* name exactly equals
an existing album's stored name fails 409, renaming to a raw name held by a
different album fails 409, and under requests whose names carry no
surrounding whitespace (`trim name = name`) both the create handler and the
rename handler preserve stored-name uniqueness (rename additionally relies
on the unique album ids that `nextAlbumId++` assigns); but because the
duplicate check uses the pre-trim request name while the stored name is
trimmed, stored-name uniqueness is not an invariant for arbitrary
requests. -/
theorem C9_album_name_uniqueness (albums : List Album) (nid : Nat) (name : String)
    (dsc : Option String) (now : String) (id : Nat) (nm : String)
    (d2 : Option (Option String)) :
    ((∃ a ∈ albums, a.name = name) → trimStr name ≠ "" →
      (createAlbum albums nid name dsc now).1 = .err 409 "Album name already exists") ∧
    (∀ album, findAlbum albums id = some album →
      (∃ a ∈ albums, a.name = nm ∧ a.id ≠ id) → trimStr nm ≠ "" →
      (patchAlbum albums id (some nm) d2 now).1 = .err 409 "Album name already exists") ∧
    ((albums.map Album.name).Nodup → trimStr name = name →
      ((createAlbum albums nid name dsc now).2.1.map Album.name).Nodup) ∧
    ((albums.map Album.name).Nodup → (albums.map Album.id).Nodup → trimStr nm = nm →
      ((patchAlbum albums id (some nm) d2 now).2.map Album.name).Nodup) := by
  refine ⟨?_, ?_, ?_, ?_⟩
  · rintro ⟨a, ha, haname⟩ htrim
    have hany : albums.any (fun a => a.name == name) = true := by
      rw [List.any_eq_true]
      exact ⟨a, ha, by simpa using haname⟩
    unfold createAlbum
    rw [if_neg htrim, if_pos hany]
  · rintro album hfa ⟨a, ha, haname, haid⟩ htrim
    have hany : albums.any (fun a => a.name == nm && a.id != id) = true := by
      rw [List.any_eq_true]
      refine ⟨a, ha, ?_⟩
      simp [haname, haid]
    unfold patchAlbum
    rw [hfa]
    simp only [if_neg htrim, hany]
    simp
  · intro hnd htrim
    unfold createAlbum
    by_cases h0 : trimStr name = ""
    · rw [if_pos h0]
      exact hnd
    · rw [if_neg h0]
      cases hany : albums.any (fun a => a.name == name) with
      | true => simpa using hnd
      | false =>
        rw [if_neg (by simp)]
        rw [List.map_append]
        refine List.Nodup.append hnd (by simp) ?_
        intro x hx hxs
        have hxname : x = trimStr name := by simpa using hxs
        rcases List.mem_map.mp hx with ⟨a, ha, haeq⟩
        have : ¬ (a.name == name) = true := by
          have := List.any_eq_false.mp hany
          simpa using this a ha
        apply this
        rw [haeq, hxname, htrim]
        simp
  · intro hnd hids htrim
    cases hfa : findAlbum albums id with
    | none =>
      have hsh : patchAlbum albums id (some nm) d2 now = (.err 404 "Album not found", albums) := by
        unfold patchAlbum
        rw [hfa]
      rw [hsh]
      exact hnd
    | some album =>
      by_cases h0 : trimStr nm = ""
      · have hsh : patchAlbum albums id (some nm) d2 now =
            (.err 400 "Album name is required", albums) := by
          unfold patchAlbum
          rw [hfa]
          simp only [if_pos h0]
        rw [hsh]
        exact hnd
      · cases hany : albums.any (fun a => a.name == nm && a.id != id) with
        | true =>
          have hsh : patchAlbum albums id (some nm) d2 now =
              (.err 409 "Album name already exists", albums) := by
            unfold patchAlbum
            rw [hfa]
            simp only [if_neg h0, hany]
            simp
          rw [hsh]
          exact hnd
        | false =>
          rcases patchAlbum_rename_ok hfa h0 hany with ⟨a', haname, heq⟩
          rw [heq]
          refine replaceFirstAlbum_names_nodup hnd hids ?_
          intro a ha hai hcontra
          have hfalse := List.any_eq_false.mp hany a ha
          apply hfalse
          have hanm : a.name = nm := by rw [hcontra, haname, htrim]
          simp [hanm, hai]

theorem C9_album_name_uniqueness_witness :
    ((createAlbum [{ id := 1, name := "Foo", description := none, cover_photo_id := none,
                     created_at := "T0", updated_at := "T0" }] 2 "Foo" none "T1").1 =
      .err 409 "Album name already exists") ∧
    ((patchAlbum [{ id := 1, name := "Foo", description := none, cover_photo_id := none,
                    created_at := "T0", updated_at := "T0" }] 1 (some "Bar") none "T1").2.map
      Album.name).Nodup :=
  ⟨(C9_album_name_uniqueness
      [{ id := 1, name := "Foo", description := none, cover_photo_id := none,
         created_at := "T0", updated_at := "T0" }] 2 "Foo" none "T1" 1 "Bar" none).1
      ⟨{ id := 1, name := "Foo", description := none, cover_photo_id := none,
         created_at := "T0", updated_at := "T0" }, by simp, rfl⟩ (by decide),
   (C9_album_name_uniqueness
      [{ id := 1, name := "Foo", description := none, cover_photo_id := none,
         created_at := "T0", updated_at := "T0" }] 2 "Foo" none "T1" 1 "Bar" none).2.2.2
      (by decide) (by decide) (by decide)⟩

/-! ### Order lemmas for the lexicographic comparator -/

theorem lexLt_irrefl : ∀ l : List Char, lexLt l l = false := by
  intro l
  induction l with
  | nil => rfl
  | cons x xs ih =>
    rw [lexLt, if_neg (lt_irrefl x), if_neg (lt_irrefl x)]
    exact ih

theorem lexLt_trans : ∀ {a b c : List Char},
    lexLt a b = true → lexLt b c = true → lexLt a c = true := by
  intro a
  induction a with
  | nil =>
    intro b c hab hbc
    cases b with
    | nil => simp [lexLt] at hab
    | cons y ys =>
      cases c with
      | nil => simp [lexLt] at hbc
      | cons z zs => rfl
  | cons x xs ih =>
    intro b c hab hbc
    cases b with
    | nil => simp [lexLt] at hab
    | cons y ys =>
      cases c with
      | nil => simp [lexLt] at hbc
      | cons z zs =>
        rw [lexLt] at hab hbc ⊢
        by_cases hxy : x < y
        · by_cases hyz : y < z
          · rw [if_pos (lt_trans hxy hyz)]
          · rw [if_neg hyz] at hbc
            by_cases hzy : z < y
            · rw [if_pos hzy] at hbc; cases hbc
            · have hyzeq : y = z := le_antisymm (not_lt.mp hzy) (not_lt.mp hyz)
              rw [if_pos (hyzeq ▸ hxy)]
        · rw [if_neg hxy] at hab
          by_cases hyx : y < x
          · rw [if_pos hyx] at hab; cases hab
          · rw [if_neg hyx] at hab
            have hxyeq : x = y := le_antisymm (not_lt.mp hyx) (not_lt.mp hxy)
            by_cases hyz : y < z
            · rw [if_pos (by rw [hxyeq]; exact hyz)]
            · rw [if_neg hyz] at hbc
              by_cases hzy : z < y
              · rw [if_pos hzy] at hbc; cases hbc
              · rw [if_neg hzy] at hbc
                have hyzeq : y = z := le_antisymm (not_lt.mp hzy) (not_lt.mp hyz)
                have hxz : ¬ x < z := by rw [hxyeq, hyzeq]; exact lt_irrefl z
                have hzx : ¬ z < x := by rw [hxyeq, hyzeq]; exact lt_irrefl z
                rw [if_neg hxz, if_neg hzx]
                exact ih hab hbc

theorem lexLt_connex : ∀ {a b : List Char},
    lexLt a b = false → lexLt b a = false → a = b := by
  intro a
  induction a with
  | nil =>
    intro b hab _
    cases b with
    | nil => rfl
    | cons y ys => simp [lexLt] at hab
  | cons x xs ih =>
    intro b hab hba
    cases b with
    | nil => simp [lexLt] at hba
    | cons y ys =>
      rw [lexLt] at hab hba
      by_cases hxy : x < y
      · rw [if_pos hxy] at hab; cases hab
      · by_cases hyx : y < x
        · rw [if_pos hyx] at hba; cases hba
        · rw [if_neg hxy, if_neg hyx] at hab
          rw [if_neg hyx, if_neg hxy] at hba
          have hxyeq : x = y := le_antisymm (not_lt.mp hyx) (not_lt.mp hxy)
          rw [hxyeq, ih hab hba]

theorem strLt_irrefl (s : String) : strLt s s = false := lexLt_irrefl _

theorem strLt_trans {a b c : String} (h1 : strLt a b = true) (h2 : strLt b c = true) :
    strLt a c = true := lexLt_trans h1 h2

theorem strLt_connex {a b : String} (h1 : strLt a b = false) (h2 : strLt b a = false) :
    a = b := by
  have hdata := lexLt_connex h1 h2
  cases a
  cases b
  exact congrArg String.mk (by simpa [String.toList] using hdata)

theorem noteCmp_desc_le_iff (a b : Note) :
    (noteCmp "updatedAt" "desc" a b ≤ 0) ↔ strLt a.updatedAt b.updatedAt = false := by
  unfold noteCmp noteField localeCmp
  rw [if_neg (by decide), if_pos rfl, if_pos rfl]
  cases h1 : strLt a.updatedAt b.updatedAt <;>
    cases h2 : strLt b.updatedAt a.updatedAt <;>
      simp [h1, h2]

/-! ### Claim C10: contentless PATCH bumps updatedAt -/

/-- C10: for an existing note, `PATCH /notes/:id` with no `content` field
succeeds with 200, leaves the note's content and tags unchanged, leaves the
index unchanged, yet still sets `updatedAt := now`; consequently, when `now`
is strictly greater than every other note's `updatedAt`, the patched note
is first under `sort=updatedAt&order=desc`. -/
theorem C10_contentless_patch (s : Store) (id now : String) (note : Note)
    (hfn : findNote s id = some note) :
    (patchNote s id none now).1 = .ok 200 { note with updatedAt := now } ∧
    (patchNote s id none now).2.noteTags = s.noteTags ∧
    (patchNote s id none now).2.notes =
      replaceFirst s.notes id (fun n => { n with updatedAt := now }) ∧
    ((s.notes.map Note.id).Nodup →
      (∀ m ∈ s.notes, m.id ≠ id → strLt m.updatedAt now = true) →
      (notesPipeline (patchNote s id none now).2
        { tag := none, search := none, sort := "updatedAt", order := "desc",
          page := 1, limit := 20 }).head? = some { note with updatedAt := now }) := by
  have hshape : patchNote s id none now =
      (.ok 200 { note with updatedAt := now },
       { s with notes := replaceFirst s.notes id (fun n => { n with updatedAt := now }) }) := by
    unfold patchNote
    rw [hfn]
  refine ⟨by rw [hshape], by rw [hshape], by rw [hshape], ?_⟩
  intro hnd hlt
  rw [hshape]
  show (List.insertionSort (fun a b => noteCmp "updatedAt" "desc" a b ≤ 0)
      (replaceFirst s.notes id (fun n => { n with updatedAt := now }))).head? =
    some { note with updatedAt := now }
  set r := fun a b : Note => noteCmp "updatedAt" "desc" a b ≤ 0 with hrdef
  set f := fun n : Note => { n with updatedAt := now } with hfdef
  set l' := replaceFirst s.notes id f with hl'
  have rIff : ∀ a b : Note, r a b ↔ strLt a.updatedAt b.updatedAt = false :=
    fun a b => noteCmp_desc_le_iff a b
  have htot : ∀ a b : Note, r a b ∨ r b a := by
    intro a b
    by_cases h : strLt a.updatedAt b.updatedAt = false
    · exact Or.inl ((rIff a b).mpr h)
    · have h' : strLt a.updatedAt b.updatedAt = true := by
        cases hh : strLt a.updatedAt b.updatedAt
        · exact absurd hh h
        · rfl
      refine Or.inr ((rIff b a).mpr ?_)
      cases hh : strLt b.updatedAt a.updatedAt
      · rfl
      · have hcontra := strLt_trans h' hh
        rw [strLt_irrefl] at hcontra
        cases hcontra
  have htrans : ∀ a b c : Note, r a b → r b c → r a c := by
    intro a b c hab hbc
    rw [rIff] at hab hbc ⊢
    cases hac : strLt a.updatedAt c.updatedAt
    · rfl
    · exfalso
      cases hba : strLt b.updatedAt a.updatedAt
      · have hba' : b.updatedAt = a.updatedAt := strLt_connex hba hab
        rw [← hba'] at hac
        rw [hbc] at hac
        cases hac
      · have hbc' := strLt_trans hba hac
        rw [hbc] at hbc'
        cases hbc'
  haveI : IsTotal Note r := ⟨htot⟩
  haveI : IsTrans Note r := ⟨htrans⟩
  have hfmem : f note ∈ l' := replaceFirst_self_mem f hfn
  have hperm := List.perm_insertionSort r l'
  have hsorted := List.sorted_insertionSort r l'
  have hmem_sorted : f note ∈ List.insertionSort r l' := hperm.mem_iff.mpr hfmem
  cases hsl : List.insertionSort r l' with
  | nil =>
    rw [hsl] at hmem_sorted
    cases hmem_sorted
  | cons hd tl =>
    rw [hsl] at hmem_sorted hsorted
    have hhd_mem : hd ∈ l' := hperm.subset (by rw [hsl]; exact List.mem_cons_self hd tl)
    show some hd = some (f note)
    rcases List.mem_cons.mp hmem_sorted with heq | htl
    · rw [← heq]
    · have hrel : r hd (f note) := (List.sorted_cons.mp hsorted).1 (f note) htl
      rcases (mem_replaceFirst_iff hnd hfn).mp hhd_mem with ⟨hold, hne⟩ | heq2
      · exfalso
        have hlt' : strLt hd.updatedAt now = true := hlt hd hold hne
        have hfalse : strLt hd.updatedAt (f note).updatedAt = false := (rIff _ _).mp hrel
        have hfupd : (f note).updatedAt = now := rfl
        rw [hfupd] at hfalse
        rw [hfalse] at hlt'
        cases hlt'
      · rw [heq2]

theorem C10_contentless_patch_witness :
    (patchNote store4 "n1" none "2024-01-05").1 =
      .ok 200 { id := "n1", content := "a", tags := [], createdAt := "2024-01-01",
                updatedAt := "2024-01-05" } ∧
    (notesPipeline (patchNote store4 "n1" none "2024-01-05").2
      { tag := none, search := none, sort := "updatedAt", order := "desc",
        page := 1, limit := 20 }).head? =
      some { id := "n1", content := "a", tags := [], createdAt := "2024-01-01",
             updatedAt := "2024-01-05" } :=
  ⟨(C10_contentless_patch store4 "n1" "2024-01-05"
      { id := "n1", content := "a", tags := [], createdAt := "2024-01-01",
        updatedAt := "2024-01-01" } (by decide)).1,
   (C10_contentless_patch store4 "n1" "2024-01-05"
      { id := "n1", content := "a", tags := [], createdAt := "2024-01-01",
        updatedAt := "2024-01-01" } (by decide)).2.2.2 (by decide) (by decide)⟩
